import Mathlib

/-!
# Verification of `graphql/validator/validator.go`

A shallow embedding of the validator's orchestration (`ValidateDocument`) and of the
AST type unwrapping helper (`unwrappedASTType`), followed by theorems about them.

Conventions of the embedding:

* A Go slice `[]*Error` is a `List Error`; the nil slice and the empty slice are both `[]`.
  The elements of the slice are taken non-nil and are represented by the struct value.
* A value of the interface `ast.Type` is the nil interface value, a non-nil pointer to a
  node, a nil pointer of one of the three node types, or a value of another dynamic type.
* The packages `ast` and `schema`, the function `newTypeInfo` and the seven validation
  passes are not part of `validator.go`.  For `ValidateDocument` the types are type
  parameters and the functions are fields of a parameter record (`Passes`); they are pure
  functions, as Go functions of the signature
  `func(*ast.Document, *schema.Schema, *TypeInfo) []*Error` that return.
* A Go `panic` is the `Except.error` result, carrying the panic message.
* `fmt.Sprintf`, of the Go standard library, is a parameter of `newError` and
  `newSecondaryError`.
* The namespace `SpecModel` holds a model of the Type Info Resolver and of the seven passes
  written from the specification (sections 3 and 4), for the statements that are about
  what the passes report.

The file has the definitions first and the theorems after them.
-/

namespace Validator

/-! ## Data model -/

/-- The struct `Error` of `validator.go` (lines 10-19): a finding with its message and the
flag that marks it as secondary. -/
structure Error where
  Message : String
  IsSecondary : Bool
deriving DecidableEq, Repr

section Constructors

variable {Arg : Type}

/-- The method `Error` of `*Error` (`validator.go`, lines 21-23): it returns the message of
the finding. -/
def Error.Error (err : Error) : String :=
  err.Message

/-- The function `newError` of `validator.go` (lines 25-29).  `fmt.Sprintf` belongs to the
Go standard library and is the parameter `Sprintf`; `Arg` is the type of the variadic
arguments.  The field `IsSecondary` is not set and so has the zero value `false`. -/
def newError (Sprintf : String → List Arg → String) (message : String) (args : List Arg) :
    Error :=
  { Message := Sprintf message args, IsSecondary := false }

/-- The function `newSecondaryError` of `validator.go` (lines 31-36), with `fmt.Sprintf` as
the parameter `Sprintf`. -/
def newSecondaryError (Sprintf : String → List Arg → String) (message : String)
    (args : List Arg) : Error :=
  { Message := Sprintf message args, IsSecondary := true }

end Constructors

/-- The functions `ValidateDocument` calls and that live in other files of the package:
`newTypeInfo` and the seven passes, each of the Go type
`func(*ast.Document, *schema.Schema, *TypeInfo) []*Error`. -/
structure Passes (Doc Sch TI : Type) where
  newTypeInfo : Doc → Sch → TI
  validateDocument : Doc → Sch → TI → List Error
  validateOperations : Doc → Sch → TI → List Error
  validateFields : Doc → Sch → TI → List Error
  validateArguments : Doc → Sch → TI → List Error
  validateFragments : Doc → Sch → TI → List Error
  validateDirectives : Doc → Sch → TI → List Error
  validateVariables : Doc → Sch → TI → List Error

section Orchestration

variable {Doc Sch TI : Type}

/-- The slice literal of `validator.go` lines 41-49: the seven passes in the order in which
the loop runs them. -/
def passTable (P : Passes Doc Sch TI) : List (Doc → Sch → TI → List Error) :=
  [ P.validateDocument,
    P.validateOperations,
    P.validateFields,
    P.validateArguments,
    P.validateFragments,
    P.validateDirectives,
    P.validateVariables ]

/-- The first loop of `ValidateDocument` (lines 40-51): starting from the nil slice, each
pass's result is appended to `errs`. -/
def collectErrs (fs : List (Doc → Sch → TI → List Error)) (doc : Doc) (s : Sch) (typeInfo : TI) :
    List Error :=
  fs.foldl (fun errs f => errs ++ f doc s typeInfo) []

/-- The second loop of `ValidateDocument` (lines 52-57): starting from the nil slice, every
finding whose `IsSecondary` is false is appended to `primary`. -/
def collectPrimary (errs : List Error) : List Error :=
  errs.foldl (fun primary err => if !err.IsSecondary then primary ++ [err] else primary) []

/-- The function `ValidateDocument` of `validator.go` (lines 38-62). -/
def ValidateDocument (P : Passes Doc Sch TI) (doc : Doc) (s : Sch) : List Error :=
  let typeInfo := P.newTypeInfo doc s
  let errs := collectErrs (passTable P) doc s typeInfo
  let primary := collectPrimary errs
  if primary.length > 0 then primary else errs

/-- The selection step that ends `ValidateDocument` (lines 52-61), as a function of the
merged findings `errs`: the primary findings when there is one, `errs` otherwise. -/
def selectFindings (errs : List Error) : List Error :=
  let primary := collectPrimary errs
  if primary.length > 0 then primary else errs

/-- The results of the seven passes on one call, in the order they run: each is applied to
the document, the schema and the type info built by `newTypeInfo` for that call. -/
def passOutputs (P : Passes Doc Sch TI) (doc : Doc) (s : Sch) : List (List Error) :=
  [ P.validateDocument doc s (P.newTypeInfo doc s),
    P.validateOperations doc s (P.newTypeInfo doc s),
    P.validateFields doc s (P.newTypeInfo doc s),
    P.validateArguments doc s (P.newTypeInfo doc s),
    P.validateFragments doc s (P.newTypeInfo doc s),
    P.validateDirectives doc s (P.newTypeInfo doc s),
    P.validateVariables doc s (P.newTypeInfo doc s) ]

end Orchestration

/-! ## The AST type unwrapping helper -/

/-- A value of the Go interface type `ast.Type` as `unwrappedASTType` sees it.  The package
`ast` is not part of `validator.go`; the payload of a named type is the type parameter
`Named`.  `nil` is the nil interface value, `ListType` and `NonNullType` are the wrapper
nodes with their field `Type`, `NamedType` is a named type node, and `unsupported` is a
value of any other dynamic type, identified by the name the verb `%T` prints for it.
`nilListType`, `nilNonNullType` and `nilNamedType` are the interface values that hold a nil
pointer of type `*ast.ListType`, `*ast.NonNullType` and `*ast.NamedType`: they are not equal
to the nil interface value, and the type switch selects the case of their pointer type. -/
inductive ASTType (Named : Type) where
  | nil : ASTType Named
  | ListType (inner : ASTType Named) : ASTType Named
  | NonNullType (inner : ASTType Named) : ASTType Named
  | NamedType (tt : Named) : ASTType Named
  | nilListType : ASTType Named
  | nilNonNullType : ASTType Named
  | nilNamedType : ASTType Named
  | unsupported (goType : String) : ASTType Named
deriving Repr

/-- The message of the run-time panic of Go when a field of a nil pointer is read. -/
def nilDereference : String :=
  "runtime error: invalid memory address or nil pointer dereference"

section Unwrap

variable {Named : Type}

/-- The function `unwrappedASTType` of `validator.go` (lines 64-80).  Each recursive call is
one more iteration of the `for` loop with `t` reassigned to the wrapper's field `Type`.
`Except.ok none` is the returned nil pointer, `Except.ok (some tt)` a returned named type,
`Except.error msg` the panic with message `msg`.  On a nil wrapper pointer the assignment
`t = tt.Type` reads a field of a nil pointer and panics; on a nil `*ast.NamedType` the case
`return tt` returns that nil pointer. -/
def unwrappedASTType : ASTType Named → Except String (Option Named)
  | .nil => .ok none
  | .ListType inner => unwrappedASTType inner
  | .NonNullType inner => unwrappedASTType inner
  | .NamedType tt => .ok (some tt)
  | .nilListType => .error nilDereference
  | .nilNonNullType => .error nilDereference
  | .nilNamedType => .ok none
  | .unsupported goType => .error ("unsupported ast type: " ++ goType)

/-- What one iteration of the `for` loop of `unwrappedASTType` does. -/
inductive Iteration (Named : Type) where
  /-- The loop goes round again with `t` reassigned. -/
  | next (t : ASTType Named) : Iteration Named
  /-- The function returns (`none` for the nil pointer). -/
  | ret (result : Option Named) : Iteration Named
  /-- The function panics. -/
  | panic (msg : String) : Iteration Named

/-- The body of the `for` loop of `unwrappedASTType` (lines 66-78): the nil test followed by
the type switch. -/
def loopBody : ASTType Named → Iteration Named
  | .nil => .ret none
  | .ListType inner => .next inner
  | .NonNullType inner => .next inner
  | .NamedType tt => .ret (some tt)
  | .nilListType => .panic nilDereference
  | .nilNonNullType => .panic nilDereference
  | .nilNamedType => .ret none
  | .unsupported goType => .panic ("unsupported ast type: " ++ goType)

/-- The `for` loop of `unwrappedASTType` run for at most `fuel` iterations: `none` when the
loop is still running after `fuel` iterations, otherwise how the function ended. -/
def runLoop : Nat → ASTType Named → Option (Except String (Option Named))
  | 0, _ => none
  | fuel + 1, t =>
    match loopBody t with
    | .next t' => runLoop fuel t'
    | .ret result => some (.ok result)
    | .panic msg => some (.error msg)

/-- The nesting depth of a type expression: the number of list and non-null wrappers around
its innermost node. -/
def nestingDepth : ASTType Named → Nat
  | .ListType inner => nestingDepth inner + 1
  | .NonNullType inner => nestingDepth inner + 1
  | _ => 0

/-- The two kinds of wrapper node. -/
inductive Wrapper where
  | list
  | nonNull
deriving DecidableEq, Repr

/-- The type expression obtained by applying the wrappers `ws` around `core`, the first
wrapper of the list outermost. -/
def wrap (ws : List Wrapper) (core : ASTType Named) : ASTType Named :=
  match ws with
  | [] => core
  | .list :: rest => .ListType (wrap rest core)
  | .nonNull :: rest => .NonNullType (wrap rest core)

end Unwrap

/-! ## Concrete passes used to instantiate the theorems -/

/-- A pass table over trivial document and schema types whose passes return fixed findings:
the fields pass reports one primary finding, the fragments pass one secondary and one
primary finding, the variables pass one secondary finding. -/
def mixedPasses : Passes Unit Unit Unit where
  newTypeInfo := fun _ _ => ()
  validateDocument := fun _ _ _ => []
  validateOperations := fun _ _ _ => []
  validateFields := fun _ _ _ => [⟨"unknown field", false⟩]
  validateArguments := fun _ _ _ => []
  validateFragments := fun _ _ _ => [⟨"unknown type", true⟩, ⟨"unused fragment", false⟩]
  validateDirectives := fun _ _ _ => []
  validateVariables := fun _ _ _ => [⟨"unknown type", true⟩]

/-- A pass table whose passes report no finding at all. -/
def silentPasses : Passes Unit Unit Unit where
  newTypeInfo := fun _ _ => ()
  validateDocument := fun _ _ _ => []
  validateOperations := fun _ _ _ => []
  validateFields := fun _ _ _ => []
  validateArguments := fun _ _ _ => []
  validateFragments := fun _ _ _ => []
  validateDirectives := fun _ _ _ => []
  validateVariables := fun _ _ _ => []

/-- A pass table whose passes only ever report secondary findings. -/
def secondaryOnlyPasses : Passes Unit Unit Unit where
  newTypeInfo := fun _ _ => ()
  validateDocument := fun _ _ _ => []
  validateOperations := fun _ _ _ => [⟨"no root type", true⟩]
  validateFields := fun _ _ _ => []
  validateArguments := fun _ _ _ => []
  validateFragments := fun _ _ _ => [⟨"unknown type", true⟩]
  validateDirectives := fun _ _ _ => []
  validateVariables := fun _ _ _ => [⟨"unknown type", true⟩]

/-! ## The validation passes, modelled from the specification

`validator.go` calls `newTypeInfo` and the seven passes, which live in other files of the
package.  This section models them from sections 3 and 4 of the specification, one
definition per sentence of the specification where possible. -/

namespace SpecModel

/-! ### Documents and schemas (specification, section 3) -/

/-- Modelled from the spec: a type expression, "named, list, or non-null wrapper,
arbitrarily nested" (section 4.10), as it occurs in variable definitions and in the
schema. -/
inductive TypeExpr where
  | named (name : String)
  | list (elem : TypeExpr)
  | nonNull (inner : TypeExpr)
deriving DecidableEq, Repr

/-- Modelled from the spec: a value in argument position (section 4.5): a runtime variable
or a literal, which is a scalar literal, an enum literal, null, a list literal or an object
literal. -/
inductive Value where
  | variable (name : String)
  | int (v : Int)
  | float (v : String)
  | string (v : String)
  | boolean (v : Bool)
  | null
  | enum (v : String)
  | list (vs : List Value)
  | object (fields : List (String × Value))
deriving Repr

/-- Modelled from the spec: an argument supplied to a field or directive invocation
(section 4.5). -/
structure Argument where
  name : String
  value : Value
deriving Repr

/-- Modelled from the spec: a directive usage (section 4.7). -/
structure Directive where
  name : String
  arguments : List Argument
deriving Repr

/-- Modelled from the spec: a selection (glossary): a field with an optional alias, its
arguments, directives and sub-selection; a fragment spread; or an inline fragment with an
optional type condition (sections 4.4 and 4.6). -/
inductive Selection where
  | field (aliasName : Option String) (name : String) (arguments : List Argument)
      (directives : List Directive) (selectionSet : List Selection)
  | fragmentSpread (name : String) (directives : List Directive)
  | inlineFragment (typeCondition : Option String) (directives : List Directive)
      (selectionSet : List Selection)
deriving Repr

/-- Modelled from the spec: the three kinds of operation (section 4.3). -/
inductive OperationType where
  | query
  | mutation
  | subscription
deriving DecidableEq, Repr

/-- Modelled from the spec: an entry of an operation's variable-definitions list
(section 4.8). -/
structure VariableDefinition where
  name : String
  type : TypeExpr
  defaultValue : Option Value
  directives : List Directive
deriving Repr

/-- Modelled from the spec: an operation definition (sections 3, 4.2, 4.3): its kind, its
name if it has one, its variable definitions, its directives and its root selection set. -/
structure OperationDefinition where
  operationType : OperationType
  name : Option String
  variableDefinitions : List VariableDefinition
  directives : List Directive
  selectionSet : List Selection
deriving Repr

/-- Modelled from the spec: a fragment definition (glossary): "a named, reusable selection
set bound to a type condition". -/
structure FragmentDefinition where
  name : String
  typeCondition : String
  directives : List Directive
  selectionSet : List Selection
deriving Repr

/-- Modelled from the spec: the document (section 3): "an ordered sequence of operation
definitions and an ordered sequence of fragment definitions, each a tree of selections". -/
structure Document where
  operations : List OperationDefinition
  fragments : List FragmentDefinition
deriving Repr

/-- Modelled from the spec: the locations a directive can appear in (section 4.7): "field,
fragment definition, inline fragment, operation definition, variable definition, etc.";
the fragment spread is the remaining node of this model that carries directives. -/
inductive DirectiveLocation where
  | operationDefinition
  | field
  | fragmentDefinition
  | fragmentSpread
  | inlineFragment
  | variableDefinition
deriving DecidableEq, Repr

/-- Modelled from the spec: the kinds of scalar literal; the domain of a scalar type
(section 4.5, "scalar literals against scalar/enum domains") is the list of the kinds of
literal it accepts. -/
inductive LiteralKind where
  | int
  | float
  | string
  | boolean
deriving DecidableEq, Repr

/-- Modelled from the spec: the declaration of an argument of a field or directive, or of a
field of an input object (sections 3 and 4.5): its name, type and default value, if any. -/
structure InputValueDefinition where
  name : String
  type : TypeExpr
  defaultValue : Option Value
deriving Repr

/-- Modelled from the spec: a field of an object or interface type with its arguments
(section 3). -/
structure FieldDefinition where
  name : String
  arguments : List InputValueDefinition
  type : TypeExpr
deriving Repr

/-- Modelled from the spec: the named types of a schema (section 3): "object, interface,
union, scalar, enum, input-object". -/
inductive TypeDefinition where
  | object (fields : List FieldDefinition) (interfaces : List String)
  | interface (fields : List FieldDefinition)
  | union (members : List String)
  | scalar (domain : List LiteralKind)
  | enum (values : List String)
  | inputObject (fields : List InputValueDefinition)
deriving Repr

/-- Modelled from the spec: a named directive "with declared valid locations" (section 3),
its arguments, and whether "the schema explicitly marks it repeatable" (section 4.7). -/
structure DirectiveDefinition where
  name : String
  arguments : List InputValueDefinition
  locations : List DirectiveLocation
  repeatable : Bool
deriving Repr

/-- Modelled from the spec: the schema (section 3): its named types, its directives, and
the root types of the three kinds of operation (section 4.3), each of which may be
absent. -/
structure Schema where
  types : List (String × TypeDefinition)
  directives : List DirectiveDefinition
  queryType : Option String
  mutationType : Option String
  subscriptionType : Option String
deriving Repr

/-! ### Schema lookups -/

/-- Modelled from the spec: the scalar types that every schema has without declaring them,
with the kinds of literal in their domains; the scenario of section 8 writes the schema
`type Query { foo: Boolean }` and declares no `Boolean`. -/
def builtinTypes : List (String × TypeDefinition) :=
  [ ("Int", .scalar [.int]),
    ("Float", .scalar [.int, .float]),
    ("String", .scalar [.string]),
    ("Boolean", .scalar [.boolean]),
    ("ID", .scalar [.string, .int]) ]

/-- Modelled from the spec: the definition of the named type `name`, if the schema has
one: a type the schema declares, or else a built-in scalar type. -/
def Schema.lookupType (s : Schema) (name : String) : Option TypeDefinition :=
  ((s.types ++ builtinTypes).find? (fun entry => entry.1 == name)).map (fun entry => entry.2)

/-- Modelled from the spec: the root type the schema defines for a kind of operation
(section 4.3). -/
def Schema.rootType (s : Schema) : OperationType → Option String
  | .query => s.queryType
  | .mutation => s.mutationType
  | .subscription => s.subscriptionType

/-- Modelled from the spec: the directives that every schema has without declaring them,
`skip(if: Boolean!)` and `include(if: Boolean!)` of the query language, allowed on fields,
fragment spreads and inline fragments and not repeatable. -/
def builtinDirectives : List DirectiveDefinition :=
  [ { name := "skip"
      arguments := [{ name := "if", type := .nonNull (.named "Boolean"), defaultValue := none }]
      locations := [.field, .fragmentSpread, .inlineFragment]
      repeatable := false },
    { name := "include"
      arguments := [{ name := "if", type := .nonNull (.named "Boolean"), defaultValue := none }]
      locations := [.field, .fragmentSpread, .inlineFragment]
      repeatable := false } ]

/-- Modelled from the spec: the definition of the directive `name`, if the schema has one
(section 4.7): a directive the schema declares, or else a built-in directive. -/
def Schema.lookupDirective (s : Schema) (name : String) : Option DirectiveDefinition :=
  (s.directives ++ builtinDirectives).find? (fun d => d.name == name)

/-- Modelled from the spec: `name` is "a composite type (object/interface/union) that
exists in the schema" (section 4.6). -/
def Schema.isComposite (s : Schema) (name : String) : Bool :=
  match s.lookupType name with
  | some (.object _ _) => true
  | some (.interface _) => true
  | some (.union _) => true
  | _ => false

/-- Modelled from the spec: `name` is a leaf type, "scalar/enum" (section 4.4). -/
def Schema.isLeaf (s : Schema) (name : String) : Bool :=
  match s.lookupType name with
  | some (.scalar _) => true
  | some (.enum _) => true
  | _ => false

/-- Modelled from the spec: `name` is a union type (section 4.4). -/
def Schema.isUnion (s : Schema) (name : String) : Bool :=
  match s.lookupType name with
  | some (.union _) => true
  | _ => false

/-- Modelled from the spec: the name of a type if the schema defines it, the unresolved
entry otherwise (section 4.1, "resolution failures are recorded as absent/unresolved
entries"). -/
def Schema.resolveType (s : Schema) (name : String) : Option String :=
  if (s.lookupType name).isSome then some name else none

/-- Modelled from the spec: the possible types of a composite type (section 4.6): an object
type itself, the object types that implement an interface, the members of a union. -/
def Schema.possibleTypes (s : Schema) (name : String) : List String :=
  match s.lookupType name with
  | some (.object _ _) => [name]
  | some (.interface _) =>
    s.types.filterMap fun entry =>
      match entry.2 with
      | .object _ interfaces => if interfaces.contains name then some entry.1 else none
      | _ => none
  | some (.union members) => members
  | _ => []

/-- Modelled from the spec: the unwrapped named type of a type expression (section 3),
"the innermost named type obtained by stripping list/non-null wrappers". -/
def TypeExpr.unwrapped : TypeExpr → String
  | .named name => name
  | .list elem => elem.unwrapped
  | .nonNull inner => inner.unwrapped

/-- Modelled from the spec: "the metafield for typename" (section 4.4), selectable on every
composite type. -/
def typenameField : FieldDefinition :=
  { name := "__typename", arguments := [], type := .nonNull (.named "String") }

/-- Modelled from the spec: the introspection metafields of the query root type, `__schema`
and `__type(name: String!)`; section 1 names the schema's introspection as a collaborator
of the validator, and the query language gives these two fields to every query root. -/
def introspectionFields : List FieldDefinition :=
  [ { name := "__schema", arguments := [], type := .nonNull (.named "__Schema") },
    { name := "__type"
      arguments := [{ name := "name", type := .nonNull (.named "String"), defaultValue := none }]
      type := .named "__Type" } ]

/-- Modelled from the spec: the metafields selectable on the type `enclosing`: the typename
metafield, and on the query root type the introspection metafields. -/
def Schema.metaFields (s : Schema) (enclosing : String) : List FieldDefinition :=
  typenameField :: (if s.queryType == some enclosing then introspectionFields else [])

/-- Modelled from the spec: "resolve the field definition on the enclosing type"
(section 4.1): a metafield of the type or the field of that name on an object or interface
type, the typename metafield on a union type, and unresolved otherwise. -/
def Schema.lookupField (s : Schema) (enclosing name : String) : Option FieldDefinition :=
  match s.lookupType enclosing with
  | some (.object fields _) =>
    (s.metaFields enclosing ++ fields).find? (fun d => d.name == name)
  | some (.interface fields) => (typenameField :: fields).find? (fun d => d.name == name)
  | some (.union _) => if name == "__typename" then some typenameField else none
  | _ => none

/-- Modelled from the spec: the fragment definition a spread of `name` refers to. -/
def Document.lookupFragment (doc : Document) (name : String) : Option FragmentDefinition :=
  doc.fragments.find? (fun f => f.name == name)

/-! ### Type Info (specification, sections 3 and 4.1) -/

/-- Modelled from the spec: one annotated AST position of the Type Info (section 4.1,
"annotates every relevant AST position (selection, argument, directive use, variable) with
its statically-resolved type and defining schema element").  A field selection carries its
enclosing type and its resolved field definition, a fragment spread and an inline fragment
carry their enclosing type, a selection set is recorded as a whole, and the directives of
one node carry their location and resolved definitions.  `none` is the unresolved entry.
The arguments of an invocation are annotated through the resolved definition of the field
or directive they belong to. -/
inductive Position where
  | field (enclosing : Option String) (aliasName : Option String) (name : String)
      (arguments : List Argument) (hasSelectionSet : Bool)
      (definition : Option FieldDefinition)
  | selectionSet (selections : List Selection)
  | fragmentSpread (enclosing : Option String) (name : String)
  | inlineFragment (enclosing : Option String) (typeCondition : Option String)
  | directives (location : DirectiveLocation)
      (uses : List (Directive × Option DirectiveDefinition))
deriving Repr

/-- Modelled from the spec: "for each directive usage, resolve the directive definition"
(section 4.1), for the directives of one node. -/
def annotateDirectives (s : Schema) (location : DirectiveLocation) (directives : List Directive) :
    Position :=
  .directives location (directives.map fun d => (d, s.lookupDirective d.name))

/-- Modelled from the spec: the enclosing type of the sub-selections of a field: the
unwrapped named type of the resolved field definition, unresolved when the field is. -/
def childType (s : Schema) (definition : Option FieldDefinition) : Option String :=
  definition.bind fun d => s.resolveType d.type.unwrapped

/-- Modelled from the spec: the enclosing type inside an inline fragment: its type
condition when it has one, the surrounding enclosing type otherwise. -/
def inlineType (s : Schema) (enclosing : Option String) (typeCondition : Option String) :
    Option String :=
  match typeCondition with
  | some name => s.resolveType name
  | none => enclosing

mutual
/-- Modelled from the spec: the walk of the Type Info Resolver over one selection
(section 4.1): "for each selection, resolve the field definition on the enclosing type (or
record 'no such field')". -/
def annotateSelection (s : Schema) (enclosing : Option String) : Selection → List Position
  | .field aliasName name arguments directives selectionSet =>
    .field enclosing aliasName name arguments (!selectionSet.isEmpty)
        (enclosing.bind fun t => s.lookupField t name)
      :: annotateDirectives s .field directives
      :: .selectionSet selectionSet
      :: annotateSelections s (childType s (enclosing.bind fun t => s.lookupField t name))
          selectionSet
  | .fragmentSpread name directives =>
    [.fragmentSpread enclosing name, annotateDirectives s .fragmentSpread directives]
  | .inlineFragment typeCondition directives selectionSet =>
    .inlineFragment enclosing typeCondition
      :: annotateDirectives s .inlineFragment directives
      :: .selectionSet selectionSet
      :: annotateSelections s (inlineType s enclosing typeCondition) selectionSet
/-- Modelled from the spec: the walk of the Type Info Resolver over the selections of one
selection set, in order. -/
def annotateSelections (s : Schema) (enclosing : Option String) : List Selection → List Position
  | [] => []
  | selection :: rest =>
    annotateSelection s enclosing selection ++ annotateSelections s enclosing rest
end

/-- Modelled from the spec: the annotation of one operation (section 4.1): the operation
and the annotated positions reachable from it. -/
structure OperationInfo where
  operation : OperationDefinition
  positions : List Position
deriving Repr

/-- Modelled from the spec: the annotation of one fragment definition (section 4.1). -/
structure FragmentInfo where
  fragment : FragmentDefinition
  positions : List Position
deriving Repr

/-- Modelled from the spec: the Type Info (section 3), the annotation "covering every
selection, argument usage, directive usage, and variable usage reachable from the
document's operations and fragments" (section 4.1).  Node identity is the place of the
annotated position in the walk; the declared type of a variable reference is resolved from
the variable definitions of the annotated operation (`lookupVariable`). -/
structure TypeInfo where
  operations : List OperationInfo
  fragments : List FragmentInfo
deriving Repr

/-- Modelled from the spec: the annotated positions of an operation: its own directives,
those of its variable definitions, its root selection set, with the operation's root type as
the enclosing type. -/
def annotateOperation (s : Schema) (op : OperationDefinition) : OperationInfo :=
  { operation := op
    positions :=
      annotateDirectives s .operationDefinition op.directives
        :: (op.variableDefinitions.map fun v =>
              annotateDirectives s .variableDefinition v.directives)
        ++ .selectionSet op.selectionSet
        :: annotateSelections s (s.rootType op.operationType) op.selectionSet }

/-- Modelled from the spec: the annotated positions of a fragment definition, with its type
condition as the enclosing type. -/
def annotateFragment (s : Schema) (f : FragmentDefinition) : FragmentInfo :=
  { fragment := f
    positions :=
      annotateDirectives s .fragmentDefinition f.directives
        :: .selectionSet f.selectionSet
        :: annotateSelections s (s.resolveType f.typeCondition) f.selectionSet }

/-- Modelled from the spec: the Type Info Resolver (section 4.1), the function `newTypeInfo`
that `ValidateDocument` calls first. -/
def newTypeInfo (doc : Document) (s : Schema) : TypeInfo :=
  { operations := doc.operations.map (annotateOperation s)
    fragments := doc.fragments.map (annotateFragment s) }

/-- Modelled from the spec: every annotated position of the Type Info, operations first. -/
def TypeInfo.positions (typeInfo : TypeInfo) : List Position :=
  typeInfo.operations.flatMap (fun info => info.positions)
    ++ typeInfo.fragments.flatMap (fun info => info.positions)

/-! ### Findings -/

/-- Modelled from the spec: a primary finding (section 3). -/
def primaryFinding (message : String) : Error :=
  { Message := message, IsSecondary := false }

/-- Modelled from the spec: a secondary finding (section 3), emitted when "the pass that
produced it could not complete its intended check because of an error that another, more
specific pass is responsible for catching". -/
def secondaryFinding (message : String) : Error :=
  { Message := message, IsSecondary := true }

/-- Modelled from the spec: the names that occur again in a list after an earlier
occurrence, one entry for each repetition (section 4.2, "one finding per violated
uniqueness constraint, referencing the duplicate's name"). -/
def duplicates : List String → List String
  | [] => []
  | name :: rest => (if rest.contains name then [name] else []) ++ duplicates rest

/-! ### Document Structure pass (specification, section 4.2) -/

/-- Modelled from the spec: the Document Structure pass (section 4.2): an anonymous
operation is disallowed when other operations exist; operation names are unique; fragment
names are unique; one finding for each violation, naming the duplicate. -/
def validateDocument (doc : Document) (_s : Schema) (_typeInfo : TypeInfo) : List Error :=
  ((doc.operations.filter fun op => op.name.isNone && decide (1 < doc.operations.length)).map
      fun _ => primaryFinding "an anonymous operation must be the only operation")
    ++ (duplicates (doc.operations.filterMap fun op => op.name)).map
        (fun name => primaryFinding ("duplicate operation name: " ++ name))
    ++ (duplicates (doc.fragments.map fun f => f.name)).map
        (fun name => primaryFinding ("duplicate fragment name: " ++ name))

/-! ### Operations pass (specification, section 4.3) -/

/-- Modelled from the spec: the findings of the Operations pass for one operation
(section 4.3): its root type must be defined by the schema, and the root selection set of a
subscription must contain exactly one selection. -/
def operationFindings (s : Schema) (op : OperationDefinition) : List Error :=
  (if (s.rootType op.operationType).isNone then
      [primaryFinding "the schema defines no root type for this kind of operation"]
    else [])
    ++ (if op.operationType = .subscription ∧ op.selectionSet.length ≠ 1 then
          [primaryFinding "a subscription must have exactly one root selection"]
        else [])

/-- Modelled from the spec: the Operations pass (section 4.3). -/
def validateOperations (doc : Document) (s : Schema) (_typeInfo : TypeInfo) : List Error :=
  doc.operations.flatMap (operationFindings s)

/-! ### Fields pass (specification, section 4.4) -/

mutual
/-- Modelled from the spec: two values are the same, for "identical arguments"
(section 4.4): the same variable, the same literal, lists with the same elements in the
same order, object literals with the same fields in any order. -/
def Value.same : Value → Value → Bool
  | .variable a, .variable b => a == b
  | .int a, .int b => a == b
  | .float a, .float b => a == b
  | .string a, .string b => a == b
  | .boolean a, .boolean b => a == b
  | .null, .null => true
  | .enum a, .enum b => a == b
  | .list as, .list bs => Value.sameList as bs
  | .object as, .object bs => as.length == bs.length && Value.fieldsAmong as bs
  | _, _ => false
/-- Modelled from the spec: two lists of values have the same elements in the same
order. -/
def Value.sameList : List Value → List Value → Bool
  | [], [] => true
  | a :: as, b :: bs => Value.same a b && Value.sameList as bs
  | _, _ => false
/-- Modelled from the spec: every field of the first object literal is a field of the
second with the same value. -/
def Value.fieldsAmong : List (String × Value) → List (String × Value) → Bool
  | [], _ => true
  | (k, a) :: as, bs =>
    (bs.any fun entry => k == entry.1 && Value.same a entry.2) && Value.fieldsAmong as bs
end

/-- Modelled from the spec: every argument of the first invocation is an argument of the
second with the same value. -/
def argumentsAmong (as bs : List Argument) : Bool :=
  as.all fun a => bs.any fun b => a.name == b.name && Value.same a.value b.value

/-- Modelled from the spec: "identical arguments" (section 4.4): the two invocations supply
the same arguments with the same values, in any order. -/
def sameArguments (as bs : List Argument) : Bool :=
  argumentsAmong as bs && argumentsAmong bs as

/-- Modelled from the spec: the response key of a field selection (section 4.4): its alias,
or its name when it has none. -/
def responseKey (aliasName : Option String) (name : String) : String :=
  aliasName.getD name

mutual
/-- Modelled from the spec: a selection is mergeable with every selection of a list
(section 4.4): two field selections with the same response key must have an "identical
field name, identical arguments, and recursively mergeable sub-selections". -/
def mergeableWith : Selection → List Selection → Bool
  | .field aliasName name arguments _ selectionSet, others =>
    others.all fun other =>
      match other with
      | .field aliasName₂ name₂ arguments₂ _ selectionSet₂ =>
        responseKey aliasName name != responseKey aliasName₂ name₂
          || (name == name₂ && sameArguments arguments arguments₂
                && setsMergeable selectionSet selectionSet₂)
      | _ => true
  | _, _ => true
/-- Modelled from the spec: every selection of the first list is mergeable with every
selection of the second. -/
def setsMergeable : List Selection → List Selection → Bool
  | [], _ => true
  | selection :: rest, others => mergeableWith selection others && setsMergeable rest others
end

/-- Modelled from the spec: the check that `mergeableWith` makes of one pair of selections
(section 4.4). -/
def pairMergeable : Selection → Selection → Bool
  | .field aliasName name arguments _ selectionSet,
    .field aliasName₂ name₂ arguments₂ _ selectionSet₂ =>
    responseKey aliasName name != responseKey aliasName₂ name₂
      || (name == name₂ && sameArguments arguments arguments₂
            && setsMergeable selectionSet selectionSet₂)
  | _, _ => true

/-- Modelled from the spec: the findings of the Fields pass at one annotated position
(section 4.4).  At a field selection whose enclosing type is resolved: a selection on a
union type other than the typename metafield is illegal; the field must exist on the
enclosing type; a leaf-type field must not carry a sub-selection and a composite-type field
must carry one.  At a selection set: one field-merging conflict for each selection that is
not mergeable with the selections of its set. -/
def fieldFindings (s : Schema) : Position → List Error
  | .field (some enclosing) _ name _ hasSelectionSet definition =>
    if s.isUnion enclosing && name != "__typename" then
      [primaryFinding ("cannot select field " ++ name ++ " on union type " ++ enclosing)]
    else
      match definition with
      | none => [primaryFinding ("unknown field " ++ name ++ " on type " ++ enclosing)]
      | some d =>
        if s.isLeaf d.type.unwrapped && hasSelectionSet then
          [primaryFinding ("leaf field " ++ name ++ " must not have a sub-selection")]
        else if s.isComposite d.type.unwrapped && !hasSelectionSet then
          [primaryFinding ("composite field " ++ name ++ " must have a sub-selection")]
        else []
  | .selectionSet selections =>
    (selections.filter fun selection => !mergeableWith selection selections).map
      fun _ => primaryFinding "field merging conflict"
  | _ => []

/-- Modelled from the spec: the Fields pass (section 4.4), run over every annotated
position. -/
def validateFields (_doc : Document) (s : Schema) (typeInfo : TypeInfo) : List Error :=
  typeInfo.positions.flatMap (fieldFindings s)

/-! ### Arguments pass (specification, section 4.5) -/

/-- Modelled from the spec: the type expression without its outer non-null wrappers. -/
def TypeExpr.nullable : TypeExpr → TypeExpr
  | .nonNull inner => inner.nullable
  | t => t

/-- Modelled from the spec: the type expression is a non-null wrapper. -/
def TypeExpr.isNonNull : TypeExpr → Bool
  | .nonNull _ => true
  | _ => false

/-- Modelled from the spec: a required argument (section 4.5): "non-null type, no
default". -/
def InputValueDefinition.isRequired (d : InputValueDefinition) : Bool :=
  d.type.isNonNull && d.defaultValue.isNone

/-- Modelled from the spec: the value is a literal other than a list literal and null: a
scalar, enum or object literal. -/
def Value.isItem : Value → Bool
  | .int _ => true
  | .float _ => true
  | .string _ => true
  | .boolean _ => true
  | .enum _ => true
  | .object _ => true
  | _ => false

/-- Modelled from the spec: a scalar literal of kind `kind` is in the domain of the scalar
type `name` (section 4.5, "scalar literals against scalar/enum domains"). -/
def scalarAccepts (s : Schema) (name : String) (kind : LiteralKind) : Bool :=
  match s.lookupType name with
  | some (.scalar domain) => domain.contains kind
  | _ => false

mutual
/-- Modelled from the spec: a value is statically coercible to a declared type
(section 4.5, "structural shape check: object literals against input-object fields, list
literals against list types, scalar literals against scalar/enum domains").  Null is
coercible to a type that is not non-null; a literal that is no list stands for the list of
that one item, so it is checked against the named type the declared type unwraps to;
"values that are runtime variables are deferred to the Variables Pass". -/
def coercible (s : Schema) : Value → TypeExpr → Bool
  | .variable _, _ => true
  | .null, t => !t.isNonNull
  | .int _, t => scalarAccepts s t.unwrapped .int
  | .float _, t => scalarAccepts s t.unwrapped .float
  | .string _, t => scalarAccepts s t.unwrapped .string
  | .boolean _, t => scalarAccepts s t.unwrapped .boolean
  | .enum v, t =>
    match s.lookupType t.unwrapped with
    | some (.enum values) => values.contains v
    | _ => false
  | .list vs, t =>
    match t.nullable with
    | .list elem => coercibleList s vs elem
    | _ => false
  | .object fields, t =>
    match s.lookupType t.unwrapped with
    | some (.inputObject definitions) =>
      coercibleFields s fields definitions
        && definitions.all fun d =>
            !d.isRequired || fields.any fun entry => entry.1 == d.name
    | _ => false
/-- Modelled from the spec: every element of a list literal is coercible to the element
type. -/
def coercibleList (s : Schema) : List Value → TypeExpr → Bool
  | [], _ => true
  | v :: vs, t => coercible s v t && coercibleList s vs t
/-- Modelled from the spec: every field of an object literal is declared by the input
object and coercible to the declared type of that field. -/
def coercibleFields (s : Schema) : List (String × Value) → List InputValueDefinition → Bool
  | [], _ => true
  | (key, v) :: rest, definitions =>
    (match definitions.find? (fun d => d.name == key) with
      | some d => coercible s v d.type
      | none => false)
      && coercibleFields s rest definitions
end

/-- Modelled from the spec: the findings of the Arguments pass for one field or directive
invocation (section 4.5): "every argument name supplied must be declared by the
field/directive; required arguments (non-null type, no default) must be supplied; argument
names within one invocation must be unique; literal argument values must be statically
coercible to the argument's declared type". -/
def invocationFindings (s : Schema) (definitions : List InputValueDefinition)
    (arguments : List Argument) : List Error :=
  ((arguments.filter fun a => !definitions.any fun d => d.name == a.name).map
      fun a => primaryFinding ("unknown argument " ++ a.name))
    ++ ((definitions.filter fun d => d.isRequired && !arguments.any fun a => a.name == d.name).map
        fun d => primaryFinding ("missing required argument " ++ d.name))
    ++ (duplicates (arguments.map fun a => a.name)).map
        (fun name => primaryFinding ("duplicate argument " ++ name))
    ++ arguments.flatMap fun a =>
        match definitions.find? (fun d => d.name == a.name) with
        | some d =>
          if coercible s a.value d.type then []
          else [primaryFinding ("argument " ++ a.name ++ " has a value of the wrong type")]
        | none => []

/-- Modelled from the spec: the findings of the Arguments pass at one annotated position
(section 4.5).  An invocation whose field or directive is unresolved cannot be checked, an
error the Fields pass or the Directives pass is responsible for: the finding is
secondary. -/
def argumentFindings (s : Schema) : Position → List Error
  | .field _ _ _ arguments _ (some d) => invocationFindings s d.arguments arguments
  | .field (some _) _ name _ _ none =>
    [secondaryFinding ("cannot check the arguments of unknown field " ++ name)]
  | .directives _ uses =>
    uses.flatMap fun use =>
      match use.2 with
      | some d => invocationFindings s d.arguments use.1.arguments
      | none => [secondaryFinding ("cannot check the arguments of unknown directive " ++ use.1.name)]
  | _ => []

/-- Modelled from the spec: the Arguments pass (section 4.5), run over every annotated
position. -/
def validateArguments (_doc : Document) (s : Schema) (typeInfo : TypeInfo) : List Error :=
  typeInfo.positions.flatMap (argumentFindings s)

/-! ### Fragments pass (specification, section 4.6) -/

mutual
/-- Modelled from the spec: the names of the fragments spread in a selection, at any
depth. -/
def spreads : Selection → List String
  | .field _ _ _ _ selectionSet => spreadsList selectionSet
  | .fragmentSpread name _ => [name]
  | .inlineFragment _ _ selectionSet => spreadsList selectionSet
/-- Modelled from the spec: the names of the fragments spread in a selection set, at any
depth. -/
def spreadsList : List Selection → List String
  | [] => []
  | selection :: rest => spreads selection ++ spreadsList rest
end

/-- Modelled from the spec: the names of the fragments that the fragment `name` spreads. -/
def Document.spreadsOf (doc : Document) (name : String) : List String :=
  (doc.fragments.filter fun f => f.name == name).flatMap fun f => spreadsList f.selectionSet

/-- Modelled from the spec: the fragment names reached from `names` by following spreads
at most `fuel` times (section 4.6, "reachable", "transitively spreading"). -/
def spreadClosure (doc : Document) : Nat → List String → List String
  | 0, names => names
  | fuel + 1, names => names ++ spreadClosure doc fuel (names.flatMap doc.spreadsOf)

/-- Modelled from the spec: the names of the fragments used by a "spread reachable from
some operation" (section 4.6).  As many rounds as the document has fragment definitions
reach every such fragment. -/
def usedFragments (doc : Document) : List String :=
  spreadClosure doc doc.fragments.length
    (doc.operations.flatMap fun op => spreadsList op.selectionSet)

/-- Modelled from the spec: the fragment `name` is "transitively spreading itself"
(section 4.6). -/
def spreadsItself (doc : Document) (name : String) : Bool :=
  (spreadClosure doc doc.fragments.length (doc.spreadsOf name)).contains name

/-- Modelled from the spec: two types have "a non-empty overlap" of possible types
(section 4.6). -/
def overlaps (s : Schema) (a b : String) : Bool :=
  (s.possibleTypes a).any fun t => (s.possibleTypes b).contains t

/-- Modelled from the spec: the findings of the Fragments pass for one fragment definition
(section 4.6): it "must be used by at least one spread reachable from some operation", it
must not spread itself transitively, and its "declared type condition must name a composite
type (object/interface/union) that exists in the schema". -/
def fragmentDefinitionFindings (doc : Document) (s : Schema) (f : FragmentDefinition) :
    List Error :=
  (if (usedFragments doc).contains f.name then []
    else [primaryFinding ("unused fragment " ++ f.name)])
    ++ (if spreadsItself doc f.name then
          [primaryFinding ("fragment " ++ f.name ++ " spreads itself")]
        else [])
    ++ (if s.isComposite f.typeCondition then []
        else [primaryFinding ("fragment " ++ f.name ++ " has no composite type condition")])

/-- Modelled from the spec: the findings of the Fragments pass at one annotated position
(section 4.6): "a fragment spread is only legal where its type condition has a non-empty
overlap with the enclosing selection's possible types", and "inline fragments follow the
same type-condition and overlap rules".  A spread that names no fragment definition of the
document has no type condition and is not legal.  The overlap of a spread cannot be checked
when the type condition of its fragment names no composite type of the schema, an error
reported at the fragment definition: the finding is secondary. -/
def fragmentPositionFindings (doc : Document) (s : Schema) : Position → List Error
  | .fragmentSpread enclosing name =>
    match doc.lookupFragment name with
    | some f =>
      match enclosing with
      | some t =>
        if s.isComposite f.typeCondition then
          if overlaps s t f.typeCondition then []
          else [primaryFinding ("fragment " ++ name ++ " can never apply to " ++ t)]
        else [secondaryFinding ("unknown type " ++ f.typeCondition)]
      | none => []
    | none => [primaryFinding ("unknown fragment " ++ name)]
  | .inlineFragment enclosing (some typeCondition) =>
    if s.isComposite typeCondition then
      match enclosing with
      | some t =>
        if overlaps s t typeCondition then []
        else [primaryFinding ("inline fragment on " ++ typeCondition ++ " can never apply to " ++ t)]
      | none => []
    else [primaryFinding ("inline fragment has no composite type condition: " ++ typeCondition)]
  | _ => []

/-- Modelled from the spec: the Fragments pass (section 4.6): the checks of every fragment
definition, then those of every annotated position. -/
def validateFragments (doc : Document) (s : Schema) (typeInfo : TypeInfo) : List Error :=
  doc.fragments.flatMap (fragmentDefinitionFindings doc s)
    ++ typeInfo.positions.flatMap (fragmentPositionFindings doc s)

/-! ### Directives pass (specification, section 4.7) -/

/-- Modelled from the spec: the findings of the Directives pass at one annotated position
(section 4.7): "every directive usage must reference a directive declared in the schema;
the location it appears in ... must be among that directive's declared valid locations; a
directive must not be repeated on the same node unless the schema explicitly marks it
repeatable". -/
def directiveFindings : Position → List Error
  | .directives location uses =>
    (uses.flatMap fun use =>
        match use.2 with
        | none => [primaryFinding ("unknown directive " ++ use.1.name)]
        | some d =>
          if d.locations.contains location then []
          else [primaryFinding ("directive " ++ use.1.name ++ " is not allowed here")])
      ++ (duplicates (uses.filterMap fun use =>
            match use.2 with
            | some d => if d.repeatable then none else some use.1.name
            | none => none)).map
          (fun name => primaryFinding ("directive " ++ name ++ " is repeated"))
  | _ => []

/-- Modelled from the spec: the Directives pass (section 4.7), run over every annotated
position. -/
def validateDirectives (_doc : Document) (_s : Schema) (typeInfo : TypeInfo) : List Error :=
  typeInfo.positions.flatMap directiveFindings

/-! ### Variables pass (specification, section 4.8) -/

mutual
/-- Modelled from the spec: the variables referenced in a value. -/
def Value.variableNames : Value → List String
  | .variable name => [name]
  | .list vs => Value.variableNamesList vs
  | .object fields => Value.variableNamesFields fields
  | _ => []
/-- Modelled from the spec: the variables referenced in the elements of a list literal. -/
def Value.variableNamesList : List Value → List String
  | [] => []
  | v :: vs => Value.variableNames v ++ Value.variableNamesList vs
/-- Modelled from the spec: the variables referenced in the fields of an object literal. -/
def Value.variableNamesFields : List (String × Value) → List String
  | [] => []
  | (_, v) :: rest => Value.variableNames v ++ Value.variableNamesFields rest
end

/-- Modelled from the spec: the variables referenced in the arguments of one invocation. -/
def argumentVariables (arguments : List Argument) : List String :=
  arguments.flatMap fun a => a.value.variableNames

/-- Modelled from the spec: the variables referenced at one annotated position. -/
def positionVariables : Position → List String
  | .field _ _ _ arguments _ _ => argumentVariables arguments
  | .directives _ uses => uses.flatMap fun use => argumentVariables use.1.arguments
  | _ => []

/-- Modelled from the spec: "list/non-null wrapper shapes must structurally match"
(section 4.8), for a variable type and the type of an argument position: a non-null
variable type satisfies a nullable and a non-null position, a nullable one only a nullable
position, a list only a list, and the named types are the same. -/
def typesMatch : TypeExpr → TypeExpr → Bool
  | .nonNull v, .nonNull p => typesMatch v p
  | .nonNull v, p => typesMatch v p
  | .list v, .list p => typesMatch v p
  | .named a, .named b => a == b
  | _, _ => false

/-- Modelled from the spec: the default value is present and is not null (section 4.8, "a
non-null default"). -/
def isNonNullDefault : Option Value → Bool
  | some .null => false
  | some _ => true
  | none => false

/-- Modelled from the spec: a position where a variable is used as a value (section 4.8):
the variable, the type that the position expects, and whether "a non-null default is
present at the usage site". -/
structure VariableUsage where
  name : String
  type : TypeExpr
  hasDefault : Bool
deriving Repr

mutual
/-- Modelled from the spec: the positions where variables are used in a value for a
position of type `t` (section 4.8, "every position where it is used as an argument value"):
the value itself when it is a variable, the elements of a list literal at the element type,
and the fields of an object literal at the declared types of the fields of the input
object. -/
def valueUsages (s : Schema) : Value → TypeExpr → Bool → List VariableUsage
  | .variable name, t, hasDefault => [{ name := name, type := t, hasDefault := hasDefault }]
  | .list vs, t, _ =>
    match t.nullable with
    | .list elem => listUsages s vs elem
    | _ => []
  | .object fields, t, _ =>
    match s.lookupType t.unwrapped with
    | some (.inputObject definitions) => fieldUsages s fields definitions
    | _ => []
  | _, _, _ => []
/-- Modelled from the spec: the positions where variables are used in the elements of a
list literal. -/
def listUsages (s : Schema) : List Value → TypeExpr → List VariableUsage
  | [], _ => []
  | v :: vs, t => valueUsages s v t false ++ listUsages s vs t
/-- Modelled from the spec: the positions where variables are used in the fields of an
object literal. -/
def fieldUsages (s : Schema) :
    List (String × Value) → List InputValueDefinition → List VariableUsage
  | [], _ => []
  | (key, v) :: rest, definitions =>
    (match definitions.find? (fun d => d.name == key) with
      | some d => valueUsages s v d.type (isNonNullDefault d.defaultValue)
      | none => [])
      ++ fieldUsages s rest definitions
end

/-- Modelled from the spec: a declared variable may be used at a position (section 4.8):
"non-null declared variables satisfy both nullable and non-null argument positions,
nullable declared variables only satisfy nullable positions unless a non-null default is
present at the usage site"; the non-null default of the variable itself counts as
well. -/
def variableAllowed (v : VariableDefinition) (usage : VariableUsage) : Bool :=
  if v.type.isNonNull then typesMatch v.type usage.type
  else
    match usage.type with
    | .nonNull inner =>
      (isNonNullDefault v.defaultValue || usage.hasDefault) && typesMatch v.type inner
    | t => typesMatch v.type t

/-- Modelled from the spec: "resolve its declared type from the operation's
variable-definitions list" (section 4.1). -/
def lookupVariable (declared : List VariableDefinition) (name : String) :
    Option VariableDefinition :=
  declared.find? (fun v => v.name == name)

/-- Modelled from the spec: the type-compatibility findings for the arguments of one
invocation (section 4.8): "a variable's declared type must be compatible with every
position where it is used as an argument value". -/
def usageFindings (s : Schema) (declared : List VariableDefinition)
    (definitions : List InputValueDefinition) (arguments : List Argument) : List Error :=
  arguments.flatMap fun a =>
    match definitions.find? (fun d => d.name == a.name) with
    | some d =>
      (valueUsages s a.value d.type (isNonNullDefault d.defaultValue)).flatMap fun usage =>
        match lookupVariable declared usage.name with
        | some v =>
          if variableAllowed v usage then []
          else
            [primaryFinding
              ("variable " ++ usage.name ++ " cannot be used for argument " ++ a.name)]
        | none => []
    | none => []

/-- Modelled from the spec: the type-compatibility findings at one annotated position. -/
def positionUsageFindings (s : Schema) (declared : List VariableDefinition) :
    Position → List Error
  | .field _ _ _ arguments _ (some d) => usageFindings s declared d.arguments arguments
  | .directives _ uses =>
    uses.flatMap fun use =>
      match use.2 with
      | some d => usageFindings s declared d.arguments use.1.arguments
      | none => []
  | _ => []

/-- Modelled from the spec: the names of the fragments that an operation includes
(glossary: a fragment is "included via a spread"): those spread in its selection set, at
any depth, and those spread in the fragments so included. -/
def includedFragments (doc : Document) (op : OperationDefinition) : List String :=
  spreadClosure doc doc.fragments.length (spreadsList op.selectionSet)

/-- Modelled from the spec: the annotated positions "inside an operation" (section 4.8):
those of the operation itself and those of the fragment definitions it includes. -/
def operationPositions (doc : Document) (typeInfo : TypeInfo) (info : OperationInfo) :
    List Position :=
  info.positions
    ++ (typeInfo.fragments.filter fun fragmentInfo =>
          (includedFragments doc info.operation).contains fragmentInfo.fragment.name).flatMap
        fun fragmentInfo => fragmentInfo.positions

/-- Modelled from the spec: the findings of the Variables pass for one operation
(section 4.8): "every variable referenced inside an operation must be declared in that
operation's variable-definitions list; every declared variable must be used at least once
somewhere in that operation", and the declared type must be compatible with every use. -/
def operationVariableFindings (doc : Document) (s : Schema) (typeInfo : TypeInfo)
    (info : OperationInfo) : List Error :=
  ((((operationPositions doc typeInfo info).flatMap positionVariables).filter fun name =>
        (lookupVariable info.operation.variableDefinitions name).isNone).map
      fun name => primaryFinding ("undeclared variable " ++ name))
    ++ ((info.operation.variableDefinitions.filter fun v =>
          !((operationPositions doc typeInfo info).flatMap positionVariables).contains v.name).map
        fun v => primaryFinding ("unused variable " ++ v.name))
    ++ (operationPositions doc typeInfo info).flatMap
        (positionUsageFindings s info.operation.variableDefinitions)

/-- Modelled from the spec: the Variables pass (section 4.8), run over every operation. -/
def validateVariables (doc : Document) (s : Schema) (typeInfo : TypeInfo) : List Error :=
  typeInfo.operations.flatMap (operationVariableFindings doc s typeInfo)

/-- Modelled from the spec: the Type Info Resolver and the seven passes as
`ValidateDocument` calls them. -/
def passes : Passes Document Schema TypeInfo where
  newTypeInfo := newTypeInfo
  validateDocument := validateDocument
  validateOperations := validateOperations
  validateFields := validateFields
  validateArguments := validateArguments
  validateFragments := validateFragments
  validateDirectives := validateDirectives
  validateVariables := validateVariables

/-! ### The schema and the documents of `TestGraphQLWS` -/

/-- The schema that `TestGraphQLWS` (`graphqlws_test.go`, lines 20-46) configures, as far
as the test's documents use it: the query field `foo` of type `Boolean` and the
subscription field `time` of type `DateTime!`. -/
def testSchema : Schema where
  types :=
    [ ("Query", .object [{ name := "foo", arguments := [], type := .named "Boolean" }] []),
      ("Subscription",
        .object [{ name := "time", arguments := [], type := .nonNull (.named "DateTime") }] []),
      ("Boolean", .scalar [.boolean]),
      ("String", .scalar [.string]),
      ("DateTime", .scalar [.string]) ]
  directives := []
  queryType := some "Query"
  mutationType := none
  subscriptionType := some "Subscription"

/-- The document `{ foo }` that `TestGraphQLWS` sends as a query (lines 91-95). -/
def fooDocument : Document where
  operations :=
    [ { operationType := .query, name := none, variableDefinitions := [], directives := [],
        selectionSet := [.field none "foo" [] [] []] } ]
  fragments := []

/-- The document `subscription { time }` that `TestGraphQLWS` sends (lines 113-117). -/
def timeDocument : Document where
  operations :=
    [ { operationType := .subscription, name := none, variableDefinitions := [],
        directives := [], selectionSet := [.field none "time" [] [] []] } ]
  fragments := []

/-- The document `{ foo bar }` of the specification's scenario (section 8). -/
def fooBarDocument : Document where
  operations :=
    [ { operationType := .query, name := none, variableDefinitions := [], directives := [],
        selectionSet := [.field none "foo" [] [] [], .field none "bar" [] [] []] } ]
  fragments := []

/-- The document `subscription { time time }` of the specification's scenario
(section 8). -/
def timeTimeDocument : Document where
  operations :=
    [ { operationType := .subscription, name := none, variableDefinitions := [],
        directives := [],
        selectionSet := [.field none "time" [] [] [], .field none "time" [] [] []] } ]
  fragments := []

/-! ### The boundary with the execution engine and the transport (specification, section 6) -/

/-- Modelled from the spec: what becomes of a request (sections 6 and 7): the document is
accepted and executed (for a subscription, its event stream is created), or it is rejected
with a terminal error and nothing is executed. -/
inductive Outcome where
  | executed
  | rejected
deriving DecidableEq, Repr

/-- Modelled from the spec: the boundary with the execution engine and the subscription
transport (section 6): `Validate` is called first; "the execution engine must not execute a
document for which `Validate` returned any finding", and "a non-empty result is translated
by the transport into a terminal protocol error message, and no stream is created". -/
def handleRequest (s : Schema) (doc : Document) : Outcome :=
  match ValidateDocument passes doc s with
  | [] => .executed
  | _ :: _ => .rejected

/-! ### Valid documents

The rules of sections 4.2 to 4.8 of the specification, stated on the document tree. -/

/-- Modelled from the spec: two values are the same (section 4.4, "identical arguments"):
they are the same value, or lists whose elements are the same in the same order, or object
literals with as many fields where `partner` gives, for each field of the first, a field of
the second with the same name and the same value. -/
inductive SameValue : Value → Value → Prop where
  | same (v : Value) : SameValue v v
  | list {as bs : List Value} :
      as.length = bs.length → (∀ p ∈ as.zip bs, SameValue p.1 p.2) →
      SameValue (.list as) (.list bs)
  | object {as bs : List (String × Value)} (partner : String × Value → String × Value) :
      as.length = bs.length →
      (∀ e ∈ as, partner e ∈ bs ∧ (partner e).1 = e.1) →
      (∀ e ∈ as, SameValue e.2 (partner e).2) →
      SameValue (.object as) (.object bs)

/-- Modelled from the spec: "identical arguments" (section 4.4): every argument of one
invocation is an argument of the other, with the same value. -/
def IdenticalArguments (as bs : List Argument) : Prop :=
  (∀ a ∈ as, ∃ b ∈ bs, b.name = a.name ∧ SameValue a.value b.value)
    ∧ ∀ b ∈ bs, ∃ a ∈ as, a.name = b.name ∧ SameValue b.value a.value

/-- Modelled from the spec: two selections are mergeable (section 4.4): two field
selections with the same response key have an "identical field name, identical arguments,
and recursively mergeable sub-selections"; nothing is required of other pairs. -/
inductive Mergeable : Selection → Selection → Prop where
  | differentKeys {a b : Option String} {n m : String} {args args₂ : List Argument}
      {dirs dirs₂ : List Directive} {sels sels₂ : List Selection} :
      responseKey a n ≠ responseKey b m →
      Mergeable (.field a n args dirs sels) (.field b m args₂ dirs₂ sels₂)
  | sameField {a b : Option String} {n : String} {args args₂ : List Argument}
      {dirs dirs₂ : List Directive} {sels sels₂ : List Selection} :
      IdenticalArguments args args₂ →
      (∀ x ∈ sels, ∀ y ∈ sels₂, Mergeable x y) →
      Mergeable (.field a n args dirs sels) (.field b n args₂ dirs₂ sels₂)
  | spreadLeft {name : String} {dirs : List Directive} {y : Selection} :
      Mergeable (.fragmentSpread name dirs) y
  | inlineLeft {c : Option String} {dirs : List Directive} {sels : List Selection}
      {y : Selection} :
      Mergeable (.inlineFragment c dirs sels) y
  | spreadRight {x : Selection} {name : String} {dirs : List Directive} :
      Mergeable x (.fragmentSpread name dirs)
  | inlineRight {x : Selection} {c : Option String} {dirs : List Directive}
      {sels : List Selection} :
      Mergeable x (.inlineFragment c dirs sels)

/-- Modelled from the spec: a value is statically coercible to a declared type
(section 4.5), as a typing judgment: a variable is coercible to every type; null to every
type that is not non-null; a value other than null to a non-null type when to the type
inside; a literal that is no list to a list type when to its element type; a list literal
to a list type when all its elements are coercible to the element type; a scalar literal to
a scalar type with its kind in the domain; an enum literal to an enum type with that value;
an object literal to an input object type when every field is declared and coercible to
the declared type and every required field is supplied. -/
inductive Coerces (s : Schema) : Value → TypeExpr → Prop where
  | var {name : String} {t : TypeExpr} : Coerces s (.variable name) t
  | null {t : TypeExpr} : t.isNonNull = false → Coerces s .null t
  | nonNull {v : Value} {t : TypeExpr} : v.isItem = true ∨ (∃ vs, v = .list vs) →
      Coerces s v t → Coerces s v (.nonNull t)
  | item {v : Value} {t : TypeExpr} : v.isItem = true → Coerces s v t → Coerces s v (.list t)
  | list {vs : List Value} {elem : TypeExpr} :
      (∀ v ∈ vs, Coerces s v elem) → Coerces s (.list vs) (.list elem)
  | int {i : Int} {n : String} {domain : List LiteralKind} :
      s.lookupType n = some (.scalar domain) → LiteralKind.int ∈ domain →
      Coerces s (.int i) (.named n)
  | float {x : String} {n : String} {domain : List LiteralKind} :
      s.lookupType n = some (.scalar domain) → LiteralKind.float ∈ domain →
      Coerces s (.float x) (.named n)
  | string {x : String} {n : String} {domain : List LiteralKind} :
      s.lookupType n = some (.scalar domain) → LiteralKind.string ∈ domain →
      Coerces s (.string x) (.named n)
  | boolean {b : Bool} {n : String} {domain : List LiteralKind} :
      s.lookupType n = some (.scalar domain) → LiteralKind.boolean ∈ domain →
      Coerces s (.boolean b) (.named n)
  | enum {v : String} {n : String} {values : List String} :
      s.lookupType n = some (.enum values) → v ∈ values → Coerces s (.enum v) (.named n)
  | object {fields : List (String × Value)} {n : String}
      {definitions : List InputValueDefinition} :
      s.lookupType n = some (.inputObject definitions) →
      (∀ e ∈ fields, ∃ d ∈ definitions, d.name = e.1) →
      (∀ e ∈ fields, ∀ d ∈ definitions, d.name = e.1 → Coerces s e.2 d.type) →
      (∀ d ∈ definitions, d.isRequired = true → ∃ e ∈ fields, e.1 = d.name) →
      Coerces s (.object fields) (.named n)

/-- Modelled from the spec: a variable is used in a value for a position of type `t`
(section 4.8, "every position where it is used as an argument value"): the value is the
variable; or it is used in an element of a list literal, at the element type; or in a field
of an object literal, at the declared type of that field of the input object. -/
inductive UsedAt (s : Schema) : Value → TypeExpr → Bool → VariableUsage → Prop where
  | here {name : String} {t : TypeExpr} {hasDefault : Bool} :
      UsedAt s (.variable name) t hasDefault
        { name := name, type := t, hasDefault := hasDefault }
  | element {vs : List Value} {t elem : TypeExpr} {hasDefault : Bool} {v : Value}
      {usage : VariableUsage} :
      t.nullable = .list elem → v ∈ vs → UsedAt s v elem false usage →
      UsedAt s (.list vs) t hasDefault usage
  | field {fields : List (String × Value)} {t : TypeExpr} {hasDefault : Bool}
      {definitions : List InputValueDefinition} {e : String × Value}
      {d : InputValueDefinition} {usage : VariableUsage} :
      s.lookupType t.unwrapped = some (.inputObject definitions) → e ∈ fields →
      d ∈ definitions → d.name = e.1 →
      UsedAt s e.2 d.type (isNonNullDefault d.defaultValue) usage →
      UsedAt s (.object fields) t hasDefault usage

/-- Modelled from the spec: "list/non-null wrapper shapes must structurally match"
(section 4.8): the type of a variable fits the type of a position when they are the same
named type, lists whose element types fit, non-null types whose inner types fit, or when
the variable type is non-null, the position is not, and the inner type fits. -/
inductive TypesMatch : TypeExpr → TypeExpr → Prop where
  | named {a : String} : TypesMatch (.named a) (.named a)
  | list {v p : TypeExpr} : TypesMatch v p → TypesMatch (.list v) (.list p)
  | nonNull {v p : TypeExpr} : TypesMatch v p → TypesMatch (.nonNull v) (.nonNull p)
  | relax {v p : TypeExpr} : p.isNonNull = false → TypesMatch v p → TypesMatch (.nonNull v) p

/-- Modelled from the spec: a declared variable may be used at a position (section 4.8):
its type fits the type of the position ("non-null declared variables satisfy both nullable
and non-null argument positions"), or the variable is nullable, the position is non-null,
a non-null default is present, and its type fits the type inside ("nullable declared
variables only satisfy nullable positions unless a non-null default is present"). -/
def Allowed (v : VariableDefinition) (usage : VariableUsage) : Prop :=
  TypesMatch v.type usage.type
    ∨ ∃ inner, usage.type = .nonNull inner ∧ v.type.isNonNull = false
        ∧ (isNonNullDefault v.defaultValue = true ∨ usage.hasDefault = true)
        ∧ TypesMatch v.type inner

/-- Modelled from the spec: two types have "a non-empty overlap" of possible types
(section 4.6): some type is a possible type of both. -/
def Overlap (s : Schema) (a b : String) : Prop :=
  ∃ t ∈ s.possibleTypes a, t ∈ s.possibleTypes b

/-- Modelled from the spec: the rules of sections 4.5 and 4.8 for one field or directive
invocation with the declared arguments `definitions`; `declared` holds of the
variable-definitions lists of the operations that the invocation is inside. -/
structure ValidInvocation (s : Schema) (declared : List VariableDefinition → Prop)
    (definitions : List InputValueDefinition) (arguments : List Argument) : Prop where
  /-- Rule: "every argument name supplied must be declared by the field/directive" -/
  known : ∀ a ∈ arguments, ∃ d ∈ definitions, d.name = a.name
  /-- Rule: "required arguments (non-null type, no default) must be supplied" -/
  required : ∀ d ∈ definitions, d.isRequired = true → ∃ a ∈ arguments, a.name = d.name
  /-- Rule: "argument names within one invocation must be unique" -/
  unique : (arguments.map fun a => a.name).Nodup
  /-- Rule: "literal argument values must be statically coercible to the argument's declared
  type" -/
  coerce : ∀ a ∈ arguments, ∀ d ∈ definitions, d.name = a.name → Coerces s a.value d.type
  /-- Rule: "a variable's declared type must be compatible with every position where it is used
  as an argument value" -/
  compatible : ∀ vars, declared vars → ∀ a ∈ arguments, ∀ d ∈ definitions, d.name = a.name →
    ∀ usage, UsedAt s a.value d.type (isNonNullDefault d.defaultValue) usage →
      ∀ v ∈ vars, v.name = usage.name → Allowed v usage

/-- Modelled from the spec: the rules of section 4.7 for the directives of one node, with
the argument rules for each of them: every directive is declared in the schema, its
location is among the declared valid locations, and two uses of one directive on the node
are uses of a repeatable directive. -/
structure ValidDirectives (s : Schema) (declared : List VariableDefinition → Prop)
    (location : DirectiveLocation) (directives : List Directive) : Prop where
  declaredHere : ∀ d ∈ directives, ∃ definition, s.lookupDirective d.name = some definition
    ∧ location ∈ definition.locations
    ∧ ValidInvocation s declared definition.arguments d.arguments
  notRepeated : directives.Pairwise fun d e =>
    d.name = e.name → ∃ definition, s.lookupDirective d.name = some definition
      ∧ definition.repeatable = true

mutual
/-- Modelled from the spec: the rules of sections 4.4 to 4.8 for one selection whose
enclosing type is `enclosing` (`none` when unresolved), in a document `doc`. -/
def ValidSelection (s : Schema) (doc : Document) (declared : List VariableDefinition → Prop)
    (enclosing : Option String) : Selection → Prop
  | .field _ name arguments directives selectionSet =>
    (∀ t, enclosing = some t →
      (s.isUnion t = true → name = "__typename")
        ∧ ∃ d, s.lookupField t name = some d
          ∧ (s.isLeaf d.type.unwrapped = true → selectionSet = [])
          ∧ (s.isComposite d.type.unwrapped = true → selectionSet ≠ [])
          ∧ ValidInvocation s declared d.arguments arguments)
      ∧ ValidDirectives s declared .field directives
      ∧ (∀ x ∈ selectionSet, ∀ y ∈ selectionSet, Mergeable x y)
      ∧ ValidSelections s doc declared
          (childType s (enclosing.bind fun t => s.lookupField t name)) selectionSet
  | .fragmentSpread name directives =>
    (∃ f ∈ doc.fragments, f.name = name)
      ∧ (∀ t, enclosing = some t → ∀ f ∈ doc.fragments, f.name = name →
          Overlap s t f.typeCondition)
      ∧ ValidDirectives s declared .fragmentSpread directives
  | .inlineFragment typeCondition directives selectionSet =>
    (∀ c, typeCondition = some c →
        s.isComposite c = true ∧ ∀ t, enclosing = some t → Overlap s t c)
      ∧ ValidDirectives s declared .inlineFragment directives
      ∧ (∀ x ∈ selectionSet, ∀ y ∈ selectionSet, Mergeable x y)
      ∧ ValidSelections s doc declared (inlineType s enclosing typeCondition) selectionSet
/-- Modelled from the spec: every selection of a selection set is valid. -/
def ValidSelections (s : Schema) (doc : Document) (declared : List VariableDefinition → Prop)
    (enclosing : Option String) : List Selection → Prop
  | [] => True
  | selection :: rest =>
    ValidSelection s doc declared enclosing selection
      ∧ ValidSelections s doc declared enclosing rest
end

/-- Modelled from the spec: the variables referenced in the arguments of the directives of
one node. -/
def directiveVariables (directives : List Directive) : List String :=
  directives.flatMap fun d => argumentVariables d.arguments

mutual
/-- Modelled from the spec: the variables referenced in a selection, at any depth of its
sub-selections. -/
def selectionVariables : Selection → List String
  | .field _ _ arguments directives selectionSet =>
    argumentVariables arguments ++ directiveVariables directives
      ++ selectionSetVariables selectionSet
  | .fragmentSpread _ directives => directiveVariables directives
  | .inlineFragment _ directives selectionSet =>
    directiveVariables directives ++ selectionSetVariables selectionSet
/-- Modelled from the spec: the variables referenced in a selection set, at any depth. -/
def selectionSetVariables : List Selection → List String
  | [] => []
  | selection :: rest => selectionVariables selection ++ selectionSetVariables rest
end

/-- Modelled from the spec: the variables referenced in the text of an operation
definition: in its directives, in those of its variable definitions and in its selection
set. -/
def operationVariables (op : OperationDefinition) : List String :=
  directiveVariables op.directives
    ++ (op.variableDefinitions.flatMap fun v => directiveVariables v.directives)
    ++ selectionSetVariables op.selectionSet

/-- Modelled from the spec: the variables referenced in the text of a fragment definition:
in its directives and in its selection set. -/
def fragmentVariables (f : FragmentDefinition) : List String :=
  directiveVariables f.directives ++ selectionSetVariables f.selectionSet

/-- Modelled from the spec: the fragment named `a` contains a spread of the fragment named
`b` (section 4.6). -/
def Spreads (doc : Document) (a b : String) : Prop :=
  ∃ f ∈ doc.fragments, f.name = a ∧ b ∈ spreadsList f.selectionSet

/-- Modelled from the spec: the operation includes the fragment `name` (glossary: a
fragment is "included via a spread"; section 4.6: a "spread reachable from some
operation"): a spread in the operation's selection set names it, or names a fragment from
which it is reached by following spreads. -/
def Includes (doc : Document) (op : OperationDefinition) (name : String) : Prop :=
  ∃ start ∈ spreadsList op.selectionSet, Relation.ReflTransGen (Spreads doc) start name

/-- Modelled from the spec: the variable `name` is "referenced inside an operation"
(section 4.8): in the text of the operation or in the text of a fragment definition that
the operation includes. -/
def ReferencedIn (doc : Document) (op : OperationDefinition) (name : String) : Prop :=
  name ∈ operationVariables op
    ∨ ∃ f ∈ doc.fragments, Includes doc op f.name ∧ name ∈ fragmentVariables f

/-- Modelled from the spec: the variable-definitions list of the operation `op`, the only
one that the positions in the text of `op` are inside. -/
def declaredBy (op : OperationDefinition) (vars : List VariableDefinition) : Prop :=
  vars = op.variableDefinitions

/-- Modelled from the spec: the variable-definitions lists of the operations that include
the fragment definition `f`. -/
def declaredAround (doc : Document) (f : FragmentDefinition)
    (vars : List VariableDefinition) : Prop :=
  ∃ op ∈ doc.operations, Includes doc op f.name ∧ vars = op.variableDefinitions

/-- A path of spreads from the fragment `a` to the fragment `b`: the list holds the
successive fragments that spread the next one, `a` first. -/
def PathVia (doc : Document) : List String → String → String → Prop
  | [], a, b => a = b
  | x :: rest, a, b => x = a ∧ ∃ y, Spreads doc a y ∧ PathVia doc rest y b

/-- Modelled from the spec: the rules of sections 4.3 to 4.8 for one operation. -/
structure ValidOperation (s : Schema) (doc : Document) (op : OperationDefinition) : Prop where
  /-- Rule: "each operation's root type (query/mutation/subscription) must be defined by the
  schema" -/
  rootDefined : ∃ t, s.rootType op.operationType = some t
  /-- Rule: "for a subscription operation, the root selection set must contain exactly one
  selection" -/
  singleRoot : op.operationType = .subscription → op.selectionSet.length = 1
  directives : ValidDirectives s (declaredBy op) .operationDefinition op.directives
  variableDirectives : ∀ v ∈ op.variableDefinitions,
    ValidDirectives s (declaredBy op) .variableDefinition v.directives
  mergeable : ∀ x ∈ op.selectionSet, ∀ y ∈ op.selectionSet, Mergeable x y
  selections : ValidSelections s doc (declaredBy op)
    (s.rootType op.operationType) op.selectionSet
  /-- Rule: "every variable referenced inside an operation must be declared in that operation's
  variable-definitions list" -/
  variablesDeclared : ∀ name, ReferencedIn doc op name →
    ∃ v ∈ op.variableDefinitions, v.name = name
  /-- Rule: "every declared variable must be used at least once somewhere in that operation" -/
  variablesUsed : ∀ v ∈ op.variableDefinitions, ReferencedIn doc op v.name

/-- Modelled from the spec: the rules of sections 4.4 to 4.8 for one fragment
definition. -/
structure ValidFragment (s : Schema) (doc : Document) (f : FragmentDefinition) : Prop where
  /-- Rule: "a fragment's declared type condition must name a composite type ... that exists in
  the schema" -/
  composite : s.isComposite f.typeCondition = true
  /-- Rule: "every fragment definition must be used by at least one spread reachable from some
  operation" -/
  used : ∃ op ∈ doc.operations, Includes doc op f.name
  /-- Rule: "fragment spreads must not form a cycle (a fragment transitively spreading
  itself)" -/
  acyclic : ¬ Relation.TransGen (Spreads doc) f.name f.name
  directives : ValidDirectives s (declaredAround doc f) .fragmentDefinition f.directives
  mergeable : ∀ x ∈ f.selectionSet, ∀ y ∈ f.selectionSet, Mergeable x y
  selections : ValidSelections s doc (declaredAround doc f) (s.resolveType f.typeCondition)
    f.selectionSet

/-- Modelled from the spec: a valid document conforming to a schema: every rule of
sections 4.2 to 4.8 holds of it. -/
structure ValidDocument (s : Schema) (doc : Document) : Prop where
  /-- an anonymous operation is the only operation of its document (section 4.2) -/
  loneAnonymous : ∀ op ∈ doc.operations, op.name = none → doc.operations.length ≤ 1
  /-- Rule: "operation names, if present, must be unique across the document" -/
  operationNames : (doc.operations.filterMap fun op => op.name).Nodup
  /-- Rule: "fragment names must be unique across the document" -/
  fragmentNames : (doc.fragments.map fun f => f.name).Nodup
  operations : ∀ op ∈ doc.operations, ValidOperation s doc op
  fragments : ∀ f ∈ doc.fragments, ValidFragment s doc f

/-! ### Further documents used to instantiate the theorems -/

/-- The schema of `TestGraphQLWS` with, in addition, the query field
`both(a: Int, b: Int): Boolean`; it declares no directive and no built-in scalar type. -/
def exampleSchema : Schema where
  types :=
    [ ("Query",
        .object
          [ { name := "foo", arguments := [], type := .named "Boolean" },
            { name := "both"
              arguments :=
                [ { name := "a", type := .named "Int", defaultValue := none },
                  { name := "b", type := .named "Int", defaultValue := none } ]
              type := .named "Boolean" } ]
          []),
      ("Subscription",
        .object [{ name := "time", arguments := [], type := .nonNull (.named "DateTime") }] []),
      ("DateTime", .scalar [.string]) ]
  directives := []
  queryType := some "Query"
  mutationType := none
  subscriptionType := some "Subscription"

/-- The operation `query Q($b: Boolean!) { ...F }` of `skipDocument`. -/
def skipOperation : OperationDefinition where
  operationType := .query
  name := some "Q"
  variableDefinitions :=
    [{ name := "b", type := .nonNull (.named "Boolean"), defaultValue := none, directives := [] }]
  directives := []
  selectionSet := [.fragmentSpread "F" []]

/-- The fragment definition `fragment F on Query { foo @skip(if: $b) }` of
`skipDocument`. -/
def skipFragment : FragmentDefinition where
  name := "F"
  typeCondition := "Query"
  directives := []
  selectionSet :=
    [.field none "foo" [] [{ name := "skip", arguments := [⟨"if", .variable "b"⟩] }] []]

/-- The document `query Q($b: Boolean!) { ...F }` with the fragment
`fragment F on Query { foo @skip(if: $b) }`: the variable is used only in a fragment that
the operation includes. -/
def skipDocument : Document where
  operations := [skipOperation]
  fragments := [skipFragment]

/-- The operation `{ both(a: 1, b: 2) both(b: 2, a: 1) }` of `bothDocument`. -/
def bothOperation : OperationDefinition where
  operationType := .query
  name := none
  variableDefinitions := []
  directives := []
  selectionSet :=
    [ .field none "both" [⟨"a", .int 1⟩, ⟨"b", .int 2⟩] [] [],
      .field none "both" [⟨"b", .int 2⟩, ⟨"a", .int 1⟩] [] [] ]

/-- The document `{ both(a: 1, b: 2) both(b: 2, a: 1) }`: the same field selected twice
with the same arguments in another order. -/
def bothDocument : Document where
  operations := [bothOperation]
  fragments := []

/-- The document `{ ...F }` with the fragment `fragment F on Query { foo @skip(if: $nowhere) }`:
the fragment that the operation includes references a variable that the operation does not
declare. -/
def nowhereDocument : Document where
  operations :=
    [ { operationType := .query, name := none, variableDefinitions := [], directives := [],
        selectionSet := [.fragmentSpread "F" []] } ]
  fragments :=
    [ { name := "F"
        typeCondition := "Query"
        directives := []
        selectionSet :=
          [ .field none "foo" []
              [{ name := "skip", arguments := [⟨"if", .variable "nowhere"⟩] }] [] ] } ]

/-- A schema whose query type has the field `echo(text: String!): String`. -/
def echoSchema : Schema where
  types :=
    [ ("Query",
        .object
          [ { name := "echo"
              arguments :=
                [{ name := "text", type := .nonNull (.named "String"), defaultValue := none }]
              type := .named "String" } ]
          []) ]
  directives := []
  queryType := some "Query"
  mutationType := none
  subscriptionType := none

/-- The document `query Q($s: String) { echo(text: $s) }` of the specification's scenario
(section 8): "a variable declared as `String` used where the argument position requires
`String!` with no default at the usage site". -/
def stringDocument : Document where
  operations :=
    [ { operationType := .query
        name := some "Q"
        variableDefinitions :=
          [{ name := "s", type := .named "String", defaultValue := none, directives := [] }]
        directives := []
        selectionSet := [.field none "echo" [⟨"text", .variable "s"⟩] [] []] } ]
  fragments := []

/-- No pass reports a finding at the annotated position `p` of a document `doc`; `declared`
holds of the variable-definitions lists of the operations that the position is inside. -/
structure PositionValid (s : Schema) (doc : Document) (declared : List VariableDefinition → Prop)
    (p : Position) : Prop where
  fields : fieldFindings s p = []
  arguments : argumentFindings s p = []
  fragments : fragmentPositionFindings doc s p = []
  directives : directiveFindings p = []
  usages : ∀ vars, declared vars → positionUsageFindings s vars p = []

end SpecModel

/-! ## Lemmas about the two loops -/

section Lemmas

variable {Doc Sch TI : Type}

theorem foldl_append_pass (fs : List (Doc → Sch → TI → List Error)) (doc : Doc) (s : Sch)
    (ti : TI) (acc : List Error) :
    fs.foldl (fun errs f => errs ++ f doc s ti) acc
      = acc ++ (fs.map (fun f => f doc s ti)).flatten := by
  induction fs generalizing acc with
  | nil => simp
  | cons f fs ih => simp [List.foldl_cons, ih, List.append_assoc]

theorem collectErrs_eq_flatten (P : Passes Doc Sch TI) (doc : Doc) (s : Sch) :
    collectErrs (passTable P) doc s (P.newTypeInfo doc s) = (passOutputs P doc s).flatten := by
  unfold collectErrs
  rw [foldl_append_pass]
  simp [passTable, passOutputs]

theorem foldl_primary (errs acc : List Error) :
    errs.foldl (fun primary err => if !err.IsSecondary then primary ++ [err] else primary) acc
      = acc ++ errs.filter (fun err => !err.IsSecondary) := by
  induction errs generalizing acc with
  | nil => simp
  | cons e es ih =>
    rw [List.foldl_cons, ih]
    cases h : e.IsSecondary <;> simp [h, List.filter_cons]

theorem collectPrimary_eq_filter (errs : List Error) :
    collectPrimary errs = errs.filter (fun err => !err.IsSecondary) := by
  unfold collectPrimary
  rw [foldl_primary]
  simp

theorem ValidateDocument_eq (P : Passes Doc Sch TI) (doc : Doc) (s : Sch) :
    ValidateDocument P doc s
      = if ((passOutputs P doc s).flatten.filter (fun err => !err.IsSecondary)).length > 0
        then (passOutputs P doc s).flatten.filter (fun err => !err.IsSecondary)
        else (passOutputs P doc s).flatten := by
  simp only [ValidateDocument, collectErrs_eq_flatten, collectPrimary_eq_filter]

end Lemmas

/-! ## Theorems about `ValidateDocument` -/

section Aggregation

variable {Doc Sch TI : Type}

/-- C1: if at least one of the seven passes emits a primary finding (`IsSecondary = false`),
the sequence returned by `ValidateDocument` contains no secondary finding. -/
theorem ValidateDocument_primary_excludes_secondary (P : Passes Doc Sch TI) (doc : Doc) (s : Sch)
    (h : ∃ out ∈ passOutputs P doc s, ∃ e ∈ out, e.IsSecondary = false) :
    ∀ e ∈ ValidateDocument P doc s, ¬ e.IsSecondary = true := by
  obtain ⟨out, hout, e₀, he₀, hprim⟩ := h
  have hmem : e₀ ∈ (passOutputs P doc s).flatten.filter (fun err => !err.IsSecondary) := by
    rw [List.mem_filter]
    exact ⟨List.mem_flatten.mpr ⟨out, hout, he₀⟩, by simp [hprim]⟩
  have hpos : ((passOutputs P doc s).flatten.filter (fun err => !err.IsSecondary)).length > 0 :=
    List.length_pos_of_mem hmem
  rw [ValidateDocument_eq, if_pos hpos]
  intro e he
  have := (List.mem_filter.mp he).2
  simpa using this

/-- C1 at a concrete pass table: the fields pass and the fragments pass report primary
findings, and the two secondary "unknown type" findings are absent from the result. -/
theorem ValidateDocument_primary_excludes_secondary_witness :
    (∃ out ∈ passOutputs mixedPasses () (), ∃ e ∈ out, e.IsSecondary = false)
      ∧ ValidateDocument mixedPasses () () = [⟨"unknown field", false⟩, ⟨"unused fragment", false⟩]
      ∧ ∀ e ∈ ValidateDocument mixedPasses () (), ¬ e.IsSecondary = true :=
  have h : ∃ out ∈ passOutputs mixedPasses () (), ∃ e ∈ out, e.IsSecondary = false :=
    ⟨[⟨"unknown field", false⟩], by simp [passOutputs, mixedPasses], ⟨"unknown field", false⟩,
      by simp, rfl⟩
  ⟨h, by decide, ValidateDocument_primary_excludes_secondary mixedPasses () () h⟩

/-- C2: no primary finding is suppressed: a primary finding occurs in the result of
`ValidateDocument` exactly as often as it occurs in the outputs of the seven passes
taken together. -/
theorem ValidateDocument_keeps_every_primary (P : Passes Doc Sch TI) (doc : Doc) (s : Sch)
    (e : Error) (he : e.IsSecondary = false) :
    (ValidateDocument P doc s).count e
      = ((passOutputs P doc s).map (fun out => out.count e)).sum := by
  have hsum : ((passOutputs P doc s).map (fun out => out.count e)).sum
      = (passOutputs P doc s).flatten.count e := by
    simp [passOutputs, List.count_append, Nat.add_assoc]
  rw [hsum, ValidateDocument_eq]
  split
  · exact List.count_filter (by simp [he])
  · rfl

/-- C2 at a concrete pass table: the primary finding "unused fragment" is emitted once, by
the fragments pass, and occurs once in the result. -/
theorem ValidateDocument_keeps_every_primary_witness :
    (⟨"unused fragment", false⟩ : Error).IsSecondary = false
      ∧ ((passOutputs mixedPasses () ()).map
          (fun out => out.count (⟨"unused fragment", false⟩ : Error))).sum = 1
      ∧ (ValidateDocument mixedPasses () ()).count ⟨"unused fragment", false⟩
          = ((passOutputs mixedPasses () ()).map
              (fun out => out.count (⟨"unused fragment", false⟩ : Error))).sum :=
  ⟨rfl, by decide,
    ValidateDocument_keeps_every_primary mixedPasses () () ⟨"unused fragment", false⟩ rfl⟩

/-- C3: the result of `ValidateDocument` is an order-preserving subsequence of the
concatenation of the outputs of the passes in the order `validateDocument`,
`validateOperations`, `validateFields`, `validateArguments`, `validateFragments`,
`validateDirectives`, `validateVariables`. -/
theorem ValidateDocument_sublist_of_pass_order (P : Passes Doc Sch TI) (doc : Doc) (s : Sch) :
    List.Sublist (ValidateDocument P doc s)
      (P.validateDocument doc s (P.newTypeInfo doc s)
        ++ P.validateOperations doc s (P.newTypeInfo doc s)
        ++ P.validateFields doc s (P.newTypeInfo doc s)
        ++ P.validateArguments doc s (P.newTypeInfo doc s)
        ++ P.validateFragments doc s (P.newTypeInfo doc s)
        ++ P.validateDirectives doc s (P.newTypeInfo doc s)
        ++ P.validateVariables doc s (P.newTypeInfo doc s)) := by
  have hcat : P.validateDocument doc s (P.newTypeInfo doc s)
        ++ P.validateOperations doc s (P.newTypeInfo doc s)
        ++ P.validateFields doc s (P.newTypeInfo doc s)
        ++ P.validateArguments doc s (P.newTypeInfo doc s)
        ++ P.validateFragments doc s (P.newTypeInfo doc s)
        ++ P.validateDirectives doc s (P.newTypeInfo doc s)
        ++ P.validateVariables doc s (P.newTypeInfo doc s)
      = (passOutputs P doc s).flatten := by
    simp [passOutputs, List.append_assoc]
  rw [hcat, ValidateDocument_eq]
  split
  · exact List.filter_sublist _
  · exact List.Sublist.refl _

/-- C4: if no finding emitted by the seven passes is primary, `ValidateDocument` returns
exactly the concatenation of the seven pass outputs in pass order, and every returned
finding is secondary. -/
theorem ValidateDocument_all_secondary (P : Passes Doc Sch TI) (doc : Doc) (s : Sch)
    (h : ∀ out ∈ passOutputs P doc s, ∀ e ∈ out, e.IsSecondary = true) :
    ValidateDocument P doc s
        = P.validateDocument doc s (P.newTypeInfo doc s)
          ++ P.validateOperations doc s (P.newTypeInfo doc s)
          ++ P.validateFields doc s (P.newTypeInfo doc s)
          ++ P.validateArguments doc s (P.newTypeInfo doc s)
          ++ P.validateFragments doc s (P.newTypeInfo doc s)
          ++ P.validateDirectives doc s (P.newTypeInfo doc s)
          ++ P.validateVariables doc s (P.newTypeInfo doc s)
      ∧ ∀ e ∈ ValidateDocument P doc s, e.IsSecondary = true := by
  have hall : ∀ e ∈ (passOutputs P doc s).flatten, e.IsSecondary = true := by
    intro e he
    obtain ⟨out, hout, hmem⟩ := List.mem_flatten.mp he
    exact h out hout e hmem
  have hnil : (passOutputs P doc s).flatten.filter (fun err => !err.IsSecondary) = [] := by
    rw [List.filter_eq_nil_iff]
    intro e he
    simp [hall e he]
  have hres : ValidateDocument P doc s = (passOutputs P doc s).flatten := by
    rw [ValidateDocument_eq, hnil]
    simp
  refine ⟨?_, ?_⟩
  · rw [hres]
    simp [passOutputs, List.append_assoc]
  · rw [hres]
    exact hall

/-- C4 at a concrete pass table: three passes report secondary findings only, and all three
findings are returned, in pass order. -/
theorem ValidateDocument_all_secondary_witness :
    (∀ out ∈ passOutputs secondaryOnlyPasses () (), ∀ e ∈ out, e.IsSecondary = true)
      ∧ ValidateDocument secondaryOnlyPasses () ()
          = [⟨"no root type", true⟩, ⟨"unknown type", true⟩, ⟨"unknown type", true⟩]
      ∧ ∀ e ∈ ValidateDocument secondaryOnlyPasses () (), e.IsSecondary = true :=
  have h : ∀ out ∈ passOutputs secondaryOnlyPasses () (), ∀ e ∈ out, e.IsSecondary = true := by
    decide
  ⟨h, (ValidateDocument_all_secondary secondaryOnlyPasses () () h).1,
    (ValidateDocument_all_secondary secondaryOnlyPasses () () h).2⟩

end Aggregation

/-! ## Theorems about `unwrappedASTType` -/

section UnwrapTheorems

variable {Named : Type}

/-- C5: for every named type `n` and every finite sequence of list and non-null wrappers
around it (any order, any length, the empty one included), `unwrappedASTType` returns
exactly `n`. -/
theorem unwrappedASTType_wrap_named (ws : List Wrapper) (n : Named) :
    unwrappedASTType (wrap ws (.NamedType n)) = .ok (some n) := by
  induction ws with
  | nil => rfl
  | cons w rest ih => cases w <;> simpa [wrap, unwrappedASTType] using ih

/-- C7: for every type expression whose chain of list and non-null wrappers ends in a node
of an unrecognized variant, `unwrappedASTType` panics: it returns no value at all, neither
a named type nor the nil pointer. -/
theorem unwrappedASTType_unsupported_panics (ws : List Wrapper) (goType : String) :
    unwrappedASTType (wrap ws (.unsupported goType : ASTType Named))
        = .error ("unsupported ast type: " ++ goType)
      ∧ ∀ r, unwrappedASTType (wrap ws (.unsupported goType : ASTType Named)) ≠ .ok r := by
  have hpanic : unwrappedASTType (wrap ws (.unsupported goType : ASTType Named))
      = .error ("unsupported ast type: " ++ goType) := by
    induction ws with
    | nil => rfl
    | cons w rest ih => cases w <;> simpa [wrap, unwrappedASTType] using ih
  refine ⟨hpanic, ?_⟩
  intro r hr
  rw [hpanic] at hr
  cases hr

/-- C8: `unwrappedASTType` terminates on every type expression: an iteration of its loop
that does not end the function continues with a type expression of nesting depth one less,
and the loop ends within `nestingDepth t + 1` iterations (and so within any larger number),
with the result `unwrappedASTType t`. -/
theorem unwrappedASTType_terminates (t : ASTType Named) :
    (∀ t', loopBody t = .next t' → nestingDepth t' + 1 = nestingDepth t)
      ∧ runLoop (nestingDepth t + 1) t = some (unwrappedASTType t)
      ∧ ∀ fuel, nestingDepth t < fuel → runLoop fuel t = some (unwrappedASTType t) := by
  have hfuel : ∀ (u : ASTType Named) (fuel : Nat), nestingDepth u < fuel →
      runLoop fuel u = some (unwrappedASTType u) := by
    intro u
    induction u with
    | nil => intro fuel hf; cases fuel with
      | zero => omega
      | succ k => rfl
    | ListType inner ih => intro fuel hf; cases fuel with
      | zero => omega
      | succ k =>
        simp only [nestingDepth] at hf
        simpa [runLoop, loopBody, unwrappedASTType] using ih k (by omega)
    | NonNullType inner ih => intro fuel hf; cases fuel with
      | zero => omega
      | succ k =>
        simp only [nestingDepth] at hf
        simpa [runLoop, loopBody, unwrappedASTType] using ih k (by omega)
    | NamedType tt => intro fuel hf; cases fuel with
      | zero => omega
      | succ k => rfl
    | nilListType => intro fuel hf; cases fuel with
      | zero => omega
      | succ k => rfl
    | nilNonNullType => intro fuel hf; cases fuel with
      | zero => omega
      | succ k => rfl
    | nilNamedType => intro fuel hf; cases fuel with
      | zero => omega
      | succ k => rfl
    | unsupported goType => intro fuel hf; cases fuel with
      | zero => omega
      | succ k => rfl
  refine ⟨?_, hfuel t _ (Nat.lt_succ_self _), hfuel t⟩
  intro t' ht'
  cases t <;> simp [loopBody] at ht' <;> subst ht' <;> simp [nestingDepth]

end UnwrapTheorems

/-! ## Further theorems about the aggregation, the unwrapping helper and the constructors -/

section Selection

variable {Doc Sch TI : Type}

theorem selectFindings_eq (errs : List Error) :
    selectFindings errs
      = if (errs.filter (fun err => !err.IsSecondary)).length > 0
        then errs.filter (fun err => !err.IsSecondary)
        else errs := by
  simp only [selectFindings, collectPrimary_eq_filter]

/-- The end of `ValidateDocument` is the selection step applied to the merged findings. -/
theorem ValidateDocument_eq_selectFindings (P : Passes Doc Sch TI) (doc : Doc) (s : Sch) :
    ValidateDocument P doc s
      = selectFindings (collectErrs (passTable P) doc s (P.newTypeInfo doc s)) :=
  rfl

/-- C11: `ValidateDocument` returns the empty sequence if and only if every one of the seven
passes returns no finding at all. -/
theorem ValidateDocument_nil_iff (P : Passes Doc Sch TI) (doc : Doc) (s : Sch) :
    ValidateDocument P doc s = [] ↔ ∀ out ∈ passOutputs P doc s, out = [] := by
  rw [ValidateDocument_eq, ← List.flatten_eq_nil_iff]
  constructor
  · intro h
    split at h
    · rename_i hpos
      rw [h] at hpos
      exact absurd hpos (by simp)
    · exact h
  · intro h
    rw [h]
    rfl

/-- C11 at concrete pass tables: passes that report nothing give the empty result, and
passes that report secondary findings only do not. -/
theorem ValidateDocument_nil_iff_witness :
    ValidateDocument silentPasses () () = []
      ∧ ¬ ValidateDocument secondaryOnlyPasses () () = [] :=
  ⟨(ValidateDocument_nil_iff silentPasses () ()).mpr (by decide),
    fun h => absurd ((ValidateDocument_nil_iff secondaryOnlyPasses () ()).mp h) (by decide)⟩

/-- C13: the selection step yields a list that is all primary or all secondary, and
applying it to an already selected list returns that list unchanged. -/
theorem selectFindings_homogeneous_idempotent (errs : List Error) :
    ((∀ e ∈ selectFindings errs, e.IsSecondary = false)
        ∨ (∀ e ∈ selectFindings errs, e.IsSecondary = true))
      ∧ selectFindings (selectFindings errs) = selectFindings errs := by
  rw [selectFindings_eq errs]
  split
  · rename_i hpos
    refine ⟨Or.inl ?_, ?_⟩
    · intro e he
      simpa using (List.mem_filter.mp he).2
    · rw [selectFindings_eq, List.filter_filter]
      simp only [Bool.and_self]
      rw [if_pos hpos]
  · rename_i hpos
    have hnil : errs.filter (fun err => !err.IsSecondary) = [] := by
      cases hf : errs.filter (fun err => !err.IsSecondary) with
      | nil => rfl
      | cons e rest => rw [hf] at hpos; simp at hpos
    refine ⟨Or.inr ?_, ?_⟩
    · intro e he
      have := (List.filter_eq_nil_iff.mp hnil) e he
      simpa using this
    · rw [selectFindings_eq, if_neg hpos]

/-- C13 at a concrete list: of a secondary, a primary and another secondary finding the
primary one is selected, and selecting again changes nothing. -/
theorem selectFindings_homogeneous_idempotent_witness :
    selectFindings [⟨"unknown type", true⟩, ⟨"unused fragment", false⟩, ⟨"unknown type", true⟩]
        = [⟨"unused fragment", false⟩]
      ∧ selectFindings
          (selectFindings
            [⟨"unknown type", true⟩, ⟨"unused fragment", false⟩, ⟨"unknown type", true⟩])
        = selectFindings
            [⟨"unknown type", true⟩, ⟨"unused fragment", false⟩, ⟨"unknown type", true⟩] :=
  ⟨by decide,
    (selectFindings_homogeneous_idempotent
      [⟨"unknown type", true⟩, ⟨"unused fragment", false⟩, ⟨"unknown type", true⟩]).2⟩

end Selection

section UnwrapResult

variable {Named : Type}

theorem unwrappedASTType_wrap (ws : List Wrapper) (core : ASTType Named) :
    unwrappedASTType (wrap ws core) = unwrappedASTType core := by
  induction ws with
  | nil => rfl
  | cons w rest ih => cases w <;> simpa [wrap, unwrappedASTType] using ih

theorem wrap_of_unwrapped_nil (t : ASTType Named) (h : unwrappedASTType t = .ok none) :
    ∃ ws, t = wrap ws .nil ∨ t = wrap ws .nilNamedType := by
  induction t with
  | nil => exact ⟨[], Or.inl rfl⟩
  | ListType inner ih =>
    obtain ⟨ws, hws⟩ := ih (by simpa [unwrappedASTType] using h)
    rcases hws with hws | hws
    · exact ⟨.list :: ws, Or.inl (by rw [hws]; rfl)⟩
    · exact ⟨.list :: ws, Or.inr (by rw [hws]; rfl)⟩
  | NonNullType inner ih =>
    obtain ⟨ws, hws⟩ := ih (by simpa [unwrappedASTType] using h)
    rcases hws with hws | hws
    · exact ⟨.nonNull :: ws, Or.inl (by rw [hws]; rfl)⟩
    · exact ⟨.nonNull :: ws, Or.inr (by rw [hws]; rfl)⟩
  | NamedType tt => simp [unwrappedASTType] at h
  | nilListType => simp [unwrappedASTType] at h
  | nilNonNullType => simp [unwrappedASTType] at h
  | nilNamedType => exact ⟨[], Or.inr rfl⟩
  | unsupported goType => simp [unwrappedASTType] at h

theorem wrap_of_unwrapped_named (t : ASTType Named) (n : Named)
    (h : unwrappedASTType t = .ok (some n)) : ∃ ws, t = wrap ws (.NamedType n) := by
  induction t with
  | nil => simp [unwrappedASTType] at h
  | ListType inner ih =>
    obtain ⟨ws, hws⟩ := ih (by simpa [unwrappedASTType] using h)
    exact ⟨.list :: ws, by rw [hws]; rfl⟩
  | NonNullType inner ih =>
    obtain ⟨ws, hws⟩ := ih (by simpa [unwrappedASTType] using h)
    exact ⟨.nonNull :: ws, by rw [hws]; rfl⟩
  | NamedType tt =>
    simp only [unwrappedASTType, Except.ok.injEq, Option.some.injEq] at h
    subst h
    exact ⟨[], rfl⟩
  | nilListType => simp [unwrappedASTType] at h
  | nilNonNullType => simp [unwrappedASTType] at h
  | nilNamedType => simp [unwrappedASTType] at h
  | unsupported goType => simp [unwrappedASTType] at h

theorem wrap_nil_ne_nilNamedType (ws : List Wrapper) :
    (.nilNamedType : ASTType Named) ≠ wrap ws .nil := by
  cases ws with
  | nil => intro h; cases h
  | cons w rest => cases w <;> intro h <;> cases h

/-- C12, as stated, fails: the interface value that holds a nil `*ast.NamedType` is not the
absent type and no wrapper around one, yet `unwrappedASTType` returns nil for it without
panicking, from the case `return tt`; so nil is returned in a case other than a chain that
ends in an absent type. -/
theorem unwrappedASTType_nil_pointer_returns_nil :
    unwrappedASTType (.nilNamedType : ASTType String) = .ok none
      ∧ (¬ ∃ ws, (.nilNamedType : ASTType String) = wrap ws .nil)
      ∧ ¬ ∀ t : ASTType String,
          (unwrappedASTType t = .ok none ↔ ∃ ws, t = wrap ws .nil)
            ∧ ∀ r, unwrappedASTType t = .ok r → (¬ ∃ ws, t = wrap ws .nil) →
                ∃ n ws, r = some n ∧ t = wrap ws (.NamedType n) := by
  have hnot : ¬ ∃ ws, (.nilNamedType : ASTType String) = wrap ws .nil := by
    rintro ⟨ws, hws⟩
    exact wrap_nil_ne_nilNamedType ws hws
  refine ⟨rfl, hnot, ?_⟩
  intro h
  exact hnot ((h .nilNamedType).1.mp rfl)

/-- C12, amended: `unwrappedASTType` returns nil, without panicking, exactly when the chain
of list and non-null wrappers ends in an absent type (the argument itself being nil
included) or in a nil `*ast.NamedType` pointer; in every other case in which it returns,
the result is a named type, the one the chain ends in. -/
theorem unwrappedASTType_returns_nil_iff (t : ASTType Named) :
    (unwrappedASTType t = .ok none
        ↔ ∃ ws, t = wrap ws .nil ∨ t = wrap ws .nilNamedType)
      ∧ ∀ r, unwrappedASTType t = .ok r →
          (¬ ∃ ws, t = wrap ws .nil ∨ t = wrap ws .nilNamedType) →
          ∃ n ws, r = some n ∧ t = wrap ws (.NamedType n) := by
  refine ⟨⟨wrap_of_unwrapped_nil t, ?_⟩, ?_⟩
  · rintro ⟨ws, rfl | rfl⟩
    · rw [unwrappedASTType_wrap]
      rfl
    · rw [unwrappedASTType_wrap]
      rfl
  · intro r hr hnot
    cases r with
    | none => exact absurd (wrap_of_unwrapped_nil t hr) hnot
    | some n =>
      obtain ⟨ws, hws⟩ := wrap_of_unwrapped_named t n hr
      exact ⟨n, ws, rfl, hws⟩

/-- C12, amended, at concrete inputs: a list whose element type is absent and a list whose
element type is a nil `*ast.NamedType` pointer unwrap to nil, and the type `[Int!]` unwraps
to a named type that the chain ends in. -/
theorem unwrappedASTType_returns_nil_iff_witness :
    unwrappedASTType (.ListType .nil : ASTType String) = .ok none
      ∧ unwrappedASTType (.ListType .nilNamedType : ASTType String) = .ok none
      ∧ ∃ n ws, some "Int" = some n
          ∧ (.ListType (.NonNullType (.NamedType "Int")) : ASTType String)
              = wrap ws (.NamedType n) :=
  ⟨(unwrappedASTType_returns_nil_iff (.ListType .nil : ASTType String)).1.mpr
      ⟨[.list], Or.inl rfl⟩,
    (unwrappedASTType_returns_nil_iff (.ListType .nilNamedType : ASTType String)).1.mpr
      ⟨[.list], Or.inr rfl⟩,
    (unwrappedASTType_returns_nil_iff
        (.ListType (.NonNullType (.NamedType "Int")) : ASTType String)).2
      (some "Int") rfl (fun h => by
        obtain ⟨ws, hws⟩ := h
        have hnil := unwrappedASTType_wrap ws (.nil : ASTType String)
        have hptr := unwrappedASTType_wrap ws (.nilNamedType : ASTType String)
        rcases hws with hws | hws
        · rw [← hws] at hnil
          simp [unwrappedASTType] at hnil
        · rw [← hws] at hptr
          simp [unwrappedASTType] at hptr)⟩

end UnwrapResult

section ConstructorTheorems

variable {Arg : Type}

/-- C14: `newError` builds a finding with `IsSecondary = false` and `newSecondaryError` one
with `IsSecondary = true`, both with the message that `fmt.Sprintf` formats from the same
inputs, and `Error()` on any finding returns exactly its `Message`. -/
theorem newError_newSecondaryError (Sprintf : String → List Arg → String) (message : String)
    (args : List Arg) :
    (newError Sprintf message args).IsSecondary = false
      ∧ (newSecondaryError Sprintf message args).IsSecondary = true
      ∧ (newError Sprintf message args).Message = Sprintf message args
      ∧ (newSecondaryError Sprintf message args).Message
          = (newError Sprintf message args).Message
      ∧ ∀ err : Error, err.Error = err.Message := by
  refine ⟨rfl, rfl, rfl, rfl, ?_⟩
  intro err
  rfl

end ConstructorTheorems

/-! ## Valid documents pass the modelled validation passes -/

namespace SpecModel

/-! ### List lemmas -/

theorem duplicates_eq_nil {names : List String} (h : names.Nodup) : duplicates names = [] := by
  induction names with
  | nil => rfl
  | cons name rest ih =>
    rw [List.nodup_cons] at h
    simp [duplicates, h.1, ih h.2]

theorem flatMap_nil_of_forall {α β : Type} (l : List α) (f : α → List β)
    (h : ∀ a ∈ l, f a = []) : l.flatMap f = [] := by
  induction l with
  | nil => rfl
  | cons a rest ih =>
    rw [List.flatMap_cons, h a (List.mem_cons_self a rest),
      ih fun b hb => h b (List.mem_cons_of_mem a hb)]
    rfl

theorem map_filter_nil_of_forall {α β : Type} (l : List α) (p : α → Bool) (f : α → β)
    (h : ∀ a ∈ l, p a = false) : (l.filter p).map f = [] := by
  have : l.filter p = [] := by
    rw [List.filter_eq_nil_iff]
    intro a ha
    simp [h a ha]
  rw [this]
  rfl

/-! ### Document Structure pass and Operations pass -/

theorem validateDocument_valid {s : Schema} {doc : Document} (h : ValidDocument s doc)
    (typeInfo : TypeInfo) : validateDocument doc s typeInfo = [] := by
  unfold validateDocument
  rw [duplicates_eq_nil h.operationNames, duplicates_eq_nil h.fragmentNames,
    map_filter_nil_of_forall]
  · rfl
  · intro op hop
    cases hname : op.name with
    | some name => simp
    | none =>
      have := h.loneAnonymous op hop hname
      simp only [Option.isNone_none, Bool.true_and, decide_eq_false_iff_not]
      omega

theorem validateOperations_valid {s : Schema} {doc : Document} (h : ValidDocument s doc)
    (typeInfo : TypeInfo) : validateOperations doc s typeInfo = [] := by
  unfold validateOperations
  apply flatMap_nil_of_forall
  intro op hop
  obtain ⟨t, ht⟩ := (h.operations op hop).rootDefined
  have hsingle := (h.operations op hop).singleRoot
  unfold operationFindings
  rw [ht]
  by_cases hsub : op.operationType = .subscription
  · simp [hsub, hsingle hsub]
  · simp [hsub]

/-! ### Field merging -/

mutual
theorem Value.same_self : ∀ v : Value, Value.same v v = true
  | .variable _ => by simp [Value.same]
  | .int _ => by simp [Value.same]
  | .float _ => by simp [Value.same]
  | .string _ => by simp [Value.same]
  | .boolean _ => by simp [Value.same]
  | .null => by simp [Value.same]
  | .enum _ => by simp [Value.same]
  | .list vs => by simpa [Value.same] using Value.sameList_self vs
  | .object fields => by
    simpa [Value.same] using Value.fieldsAmong_subset fields fields (fun _ h => h)
theorem Value.sameList_self : ∀ vs : List Value, Value.sameList vs vs = true
  | [] => by simp [Value.sameList]
  | v :: vs => by simp [Value.sameList, Value.same_self v, Value.sameList_self vs]
theorem Value.fieldsAmong_subset :
    ∀ as bs : List (String × Value), (∀ e ∈ as, e ∈ bs) → Value.fieldsAmong as bs = true
  | [], _, _ => by simp [Value.fieldsAmong]
  | (k, a) :: rest, bs, h => by
    rw [Value.fieldsAmong, Bool.and_eq_true]
    refine ⟨?_, Value.fieldsAmong_subset rest bs fun e he => h e (List.mem_cons_of_mem _ he)⟩
    rw [List.any_eq_true]
    exact ⟨(k, a), h (k, a) (List.mem_cons_self _ _), by simp [Value.same_self a]⟩
end

theorem sameList_of_zip (same : Value → Value → Prop)
    (hsame : ∀ a b, same a b → Value.same a b = true) :
    ∀ as bs : List Value, as.length = bs.length → (∀ p ∈ as.zip bs, same p.1 p.2) →
      Value.sameList as bs = true
  | [], [], _, _ => by simp [Value.sameList]
  | [], _ :: _, hlen, _ => by simp at hlen
  | _ :: _, [], hlen, _ => by simp at hlen
  | a :: as, b :: bs, hlen, h => by
    rw [Value.sameList, Bool.and_eq_true]
    refine ⟨hsame a b (h (a, b) (by simp)), ?_⟩
    refine sameList_of_zip same hsame as bs (by simpa using hlen) ?_
    intro p hp
    exact h p (by simp [hp])

theorem fieldsAmong_of_partner (partner : String × Value → String × Value)
    (bs : List (String × Value)) :
    ∀ as : List (String × Value), (∀ e ∈ as, partner e ∈ bs ∧ (partner e).1 = e.1) →
      (∀ e ∈ as, Value.same e.2 (partner e).2 = true) → Value.fieldsAmong as bs = true
  | [], _, _ => by simp [Value.fieldsAmong]
  | (k, a) :: rest, hpartner, hsame => by
    rw [Value.fieldsAmong, Bool.and_eq_true]
    refine ⟨?_, fieldsAmong_of_partner partner bs rest
      (fun e he => hpartner e (List.mem_cons_of_mem _ he))
      (fun e he => hsame e (List.mem_cons_of_mem _ he))⟩
    rw [List.any_eq_true]
    have hp := hpartner (k, a) (List.mem_cons_self _ _)
    have hs := hsame (k, a) (List.mem_cons_self _ _)
    exact ⟨partner (k, a), hp.1, by simp [hp.2, hs]⟩

theorem same_of_sameValue {a b : Value} (h : SameValue a b) : Value.same a b = true := by
  induction h with
  | same v => exact Value.same_self v
  | list hlen _ ih =>
    rw [Value.same]
    exact sameList_of_zip (fun a b => Value.same a b = true) (fun _ _ h => h) _ _ hlen ih
  | object partner hlen hpartner _ ih =>
    rw [Value.same, Bool.and_eq_true]
    exact ⟨by simp [hlen], fieldsAmong_of_partner partner _ _ hpartner ih⟩

theorem sameArguments_of_identical {as bs : List Argument} (h : IdenticalArguments as bs) :
    sameArguments as bs = true := by
  have hamong : ∀ xs ys : List Argument,
      (∀ a ∈ xs, ∃ b ∈ ys, b.name = a.name ∧ SameValue a.value b.value) →
      argumentsAmong xs ys = true := by
    intro xs ys hxy
    unfold argumentsAmong
    rw [List.all_eq_true]
    intro a ha
    obtain ⟨b, hb, hname, hsame⟩ := hxy a ha
    rw [List.any_eq_true]
    exact ⟨b, hb, by simp [hname, same_of_sameValue hsame]⟩
  unfold sameArguments
  rw [Bool.and_eq_true]
  exact ⟨hamong as bs h.1, hamong bs as h.2⟩

theorem mergeableWith_eq_all (x : Selection) (others : List Selection) :
    mergeableWith x others = others.all (pairMergeable x) := by
  cases x with
  | field a n args dirs sels =>
    rw [mergeableWith]
    congr 1
    funext other
    cases other <;> rfl
  | fragmentSpread name dirs =>
    rw [mergeableWith]
    · symm
      rw [List.all_eq_true]
      intro y _
      rfl
    · intro a n args dirs sels h
      cases h
  | inlineFragment c dirs sels =>
    rw [mergeableWith]
    · symm
      rw [List.all_eq_true]
      intro y _
      rfl
    · intro a n args dirs sels h
      cases h

theorem setsMergeable_of_forall (xs ys : List Selection)
    (h : ∀ x ∈ xs, ∀ y ∈ ys, pairMergeable x y = true) : setsMergeable xs ys = true := by
  induction xs with
  | nil => rfl
  | cons x rest ih =>
    rw [setsMergeable, mergeableWith_eq_all, Bool.and_eq_true]
    refine ⟨?_, ih fun x' hx' => h x' (List.mem_cons_of_mem x hx')⟩
    rw [List.all_eq_true]
    exact h x (List.mem_cons_self x rest)

theorem pairMergeable_of_mergeable {x y : Selection} (h : Mergeable x y) :
    pairMergeable x y = true := by
  induction h with
  | differentKeys hne => simp [pairMergeable, hne]
  | sameField hargs _ ih =>
    simp [pairMergeable, sameArguments_of_identical hargs, setsMergeable_of_forall _ _ ih]
  | spreadLeft => rfl
  | inlineLeft => rfl
  | spreadRight => rename_i x _ _; cases x <;> rfl
  | inlineRight => rename_i x _ _ _; cases x <;> rfl

theorem selectionSet_fieldFindings (s : Schema) (selections : List Selection)
    (h : ∀ x ∈ selections, ∀ y ∈ selections, Mergeable x y) :
    fieldFindings s (.selectionSet selections) = [] := by
  rw [fieldFindings]
  apply map_filter_nil_of_forall
  intro x hx
  rw [mergeableWith_eq_all]
  simp only [Bool.not_eq_false_eq_eq_true, List.all_eq_true]
  intro y hy
  exact pairMergeable_of_mergeable (h x hx y hy)

/-! ### Coercion and variable usages -/

theorem coercibleList_of_forall (s : Schema) (elem : TypeExpr) :
    ∀ vs : List Value, (∀ v ∈ vs, coercible s v elem = true) → coercibleList s vs elem = true
  | [], _ => by simp [coercibleList]
  | v :: vs, h => by
    rw [coercibleList, Bool.and_eq_true]
    exact ⟨h v (List.mem_cons_self _ _),
      coercibleList_of_forall s elem vs fun w hw => h w (List.mem_cons_of_mem _ hw)⟩

theorem coercibleFields_of_forall (s : Schema) (definitions : List InputValueDefinition) :
    ∀ fields : List (String × Value),
      (∀ e ∈ fields, ∃ d ∈ definitions, d.name = e.1) →
      (∀ e ∈ fields, ∀ d ∈ definitions, d.name = e.1 → coercible s e.2 d.type = true) →
      coercibleFields s fields definitions = true
  | [], _, _ => by simp [coercibleFields]
  | (key, v) :: rest, hknown, hall => by
    rw [coercibleFields, Bool.and_eq_true]
    refine ⟨?_, coercibleFields_of_forall s definitions rest
      (fun e he => hknown e (List.mem_cons_of_mem _ he))
      (fun e he => hall e (List.mem_cons_of_mem _ he))⟩
    cases hfind : definitions.find? (fun d => d.name == key) with
    | some d =>
      have hname : d.name = key := by simpa using List.find?_some hfind
      exact hall (key, v) (List.mem_cons_self _ _) d (List.mem_of_find?_eq_some hfind) hname
    | none =>
      obtain ⟨d, hd, hname⟩ := hknown (key, v) (List.mem_cons_self _ _)
      rw [List.find?_eq_none] at hfind
      have := hfind d hd
      simp at hname
      simp [hname] at this

theorem coercible_of_coerces {s : Schema} {v : Value} {t : TypeExpr} (h : Coerces s v t) :
    coercible s v t = true := by
  induction h with
  | var => simp [coercible]
  | null ht => simp [coercible, ht]
  | @nonNull v t hv _ ih =>
    rcases hv with hv | ⟨vs, rfl⟩
    · cases v <;> simp [Value.isItem] at hv <;>
        simpa [coercible, TypeExpr.unwrapped] using ih
    · simpa [coercible, TypeExpr.nullable] using ih
  | @item v t hv _ ih =>
    cases v <;> simp [Value.isItem] at hv <;> simpa [coercible, TypeExpr.unwrapped] using ih
  | list _ ih =>
    simp only [coercible, TypeExpr.nullable]
    exact coercibleList_of_forall s _ _ ih
  | int hlook hmem => simp [coercible, TypeExpr.unwrapped, scalarAccepts, hlook, hmem]
  | float hlook hmem => simp [coercible, TypeExpr.unwrapped, scalarAccepts, hlook, hmem]
  | string hlook hmem => simp [coercible, TypeExpr.unwrapped, scalarAccepts, hlook, hmem]
  | boolean hlook hmem => simp [coercible, TypeExpr.unwrapped, scalarAccepts, hlook, hmem]
  | enum hlook hmem => simp [coercible, TypeExpr.unwrapped, hlook, hmem]
  | object hlook hknown _ hrequired ih =>
    simp only [coercible, TypeExpr.unwrapped, hlook, Bool.and_eq_true, List.all_eq_true]
    refine ⟨coercibleFields_of_forall s _ _ hknown ih, ?_⟩
    intro d hd
    cases hreq : d.isRequired with
    | false => rfl
    | true =>
      obtain ⟨e, he, hname⟩ := hrequired d hd hreq
      simp only [Bool.not_true, Bool.false_or, List.any_eq_true]
      exact ⟨e, he, by simp [hname]⟩

theorem typesMatch_of_match {v p : TypeExpr} (h : TypesMatch v p) : typesMatch v p = true := by
  induction h with
  | named => simp [typesMatch]
  | list _ ih => simpa [typesMatch] using ih
  | nonNull _ ih => simpa [typesMatch] using ih
  | @relax v p hp _ ih =>
    cases p with
    | named a => simpa [typesMatch] using ih
    | list elem => simpa [typesMatch] using ih
    | nonNull inner => simp [TypeExpr.isNonNull] at hp

theorem isNonNull_of_match {v p : TypeExpr} (h : TypesMatch v p)
    (hp : p.isNonNull = true) : v.isNonNull = true := by
  cases h with
  | named => simp [TypeExpr.isNonNull] at hp
  | list _ => simp [TypeExpr.isNonNull] at hp
  | nonNull _ => rfl
  | relax _ _ => rfl

theorem variableAllowed_of_allowed {v : VariableDefinition} {usage : VariableUsage}
    (h : Allowed v usage) : variableAllowed v usage = true := by
  unfold variableAllowed
  rcases h with h | ⟨inner, htype, hnull, hdefault, hmatch⟩
  · cases hv : v.type.isNonNull with
    | true => simpa using typesMatch_of_match h
    | false =>
      cases htype : usage.type with
      | named a => rw [htype] at h; simpa using typesMatch_of_match h
      | list elem => rw [htype] at h; simpa using typesMatch_of_match h
      | nonNull inner =>
        have := isNonNull_of_match h (by rw [htype]; rfl)
        rw [hv] at this
        cases this
  · rw [hnull, htype]
    have hd : (isNonNullDefault v.defaultValue || usage.hasDefault) = true := by
      rcases hdefault with hd | hd <;> simp [hd]
    simp [hd, typesMatch_of_match hmatch]

mutual
theorem usedAt_of_valueUsages (s : Schema) :
    ∀ (v : Value) (t : TypeExpr) (hasDefault : Bool) (usage : VariableUsage),
      usage ∈ valueUsages s v t hasDefault → UsedAt s v t hasDefault usage
  | .variable name, t, hasDefault, usage, h => by
    simp only [valueUsages, List.mem_singleton] at h
    subst h
    exact UsedAt.here
  | .list vs, t, hasDefault, usage, h => by
    rw [valueUsages] at h
    cases ht : t.nullable with
    | list elem =>
      rw [ht] at h
      obtain ⟨v, hv, hused⟩ := usedAt_of_listUsages s vs elem usage h
      exact UsedAt.element ht hv hused
    | named a => rw [ht] at h; cases h
    | nonNull inner => rw [ht] at h; cases h
  | .object fields, t, hasDefault, usage, h => by
    rw [valueUsages] at h
    cases hlook : s.lookupType t.unwrapped with
    | none => rw [hlook] at h; cases h
    | some definition =>
      rw [hlook] at h
      cases definition with
      | inputObject definitions =>
        obtain ⟨e, he, d, hd, hname, hused⟩ := usedAt_of_fieldUsages s fields definitions usage h
        exact UsedAt.field hlook he hd hname hused
      | object _ _ => cases h
      | interface _ => cases h
      | union _ => cases h
      | scalar _ => cases h
      | enum _ => cases h
  | .int _, _, _, _, h => by simp [valueUsages] at h
  | .float _, _, _, _, h => by simp [valueUsages] at h
  | .string _, _, _, _, h => by simp [valueUsages] at h
  | .boolean _, _, _, _, h => by simp [valueUsages] at h
  | .null, _, _, _, h => by simp [valueUsages] at h
  | .enum _, _, _, _, h => by simp [valueUsages] at h
theorem usedAt_of_listUsages (s : Schema) :
    ∀ (vs : List Value) (elem : TypeExpr) (usage : VariableUsage),
      usage ∈ listUsages s vs elem → ∃ v ∈ vs, UsedAt s v elem false usage
  | [], _, _, h => by simp [listUsages] at h
  | v :: vs, elem, usage, h => by
    rw [listUsages, List.mem_append] at h
    rcases h with h | h
    · exact ⟨v, List.mem_cons_self _ _, usedAt_of_valueUsages s v elem false usage h⟩
    · obtain ⟨w, hw, hused⟩ := usedAt_of_listUsages s vs elem usage h
      exact ⟨w, List.mem_cons_of_mem _ hw, hused⟩
theorem usedAt_of_fieldUsages (s : Schema) :
    ∀ (fields : List (String × Value)) (definitions : List InputValueDefinition)
      (usage : VariableUsage), usage ∈ fieldUsages s fields definitions →
      ∃ e ∈ fields, ∃ d ∈ definitions, d.name = e.1
        ∧ UsedAt s e.2 d.type (isNonNullDefault d.defaultValue) usage
  | [], _, _, h => by simp [fieldUsages] at h
  | (key, v) :: rest, definitions, usage, h => by
    rw [fieldUsages, List.mem_append] at h
    rcases h with h | h
    · cases hfind : definitions.find? (fun d => d.name == key) with
      | none => rw [hfind] at h; cases h
      | some d =>
        rw [hfind] at h
        have hname : d.name = key := by simpa using List.find?_some hfind
        exact ⟨(key, v), List.mem_cons_self _ _, d, List.mem_of_find?_eq_some hfind, hname,
          usedAt_of_valueUsages s v d.type _ usage h⟩
    · obtain ⟨e, he, d, hd, hname, hused⟩ := usedAt_of_fieldUsages s rest definitions usage h
      exact ⟨e, List.mem_cons_of_mem _ he, d, hd, hname, hused⟩
end

/-! ### Invocations and directives -/

theorem invocationFindings_valid {s : Schema} {declared : List VariableDefinition → Prop}
    {definitions : List InputValueDefinition} {arguments : List Argument}
    (h : ValidInvocation s declared definitions arguments) :
    invocationFindings s definitions arguments = [] := by
  unfold invocationFindings
  rw [duplicates_eq_nil h.unique, map_filter_nil_of_forall, map_filter_nil_of_forall,
    flatMap_nil_of_forall]
  · rfl
  · intro a ha
    cases hfind : definitions.find? (fun d => d.name == a.name) with
    | none => rfl
    | some d =>
      have hname : d.name = a.name := by simpa using List.find?_some hfind
      simp [coercible_of_coerces (h.coerce a ha d (List.mem_of_find?_eq_some hfind) hname)]
  · intro d hd
    cases hreq : d.isRequired with
    | false => rfl
    | true =>
      obtain ⟨a, ha, hname⟩ := h.required d hd hreq
      simp only [Bool.true_and, Bool.not_eq_false_eq_eq_true, List.any_eq_true]
      exact ⟨a, ha, by simp [hname]⟩
  · intro a ha
    obtain ⟨d, hd, hname⟩ := h.known a ha
    simp only [Bool.not_eq_false_eq_eq_true, List.any_eq_true]
    exact ⟨d, hd, by simp [hname]⟩

theorem usageFindings_valid {s : Schema} {declared : List VariableDefinition → Prop}
    {vars : List VariableDefinition} (hvars : declared vars)
    {definitions : List InputValueDefinition} {arguments : List Argument}
    (h : ValidInvocation s declared definitions arguments) :
    usageFindings s vars definitions arguments = [] := by
  unfold usageFindings
  apply flatMap_nil_of_forall
  intro a ha
  cases hfind : definitions.find? (fun d => d.name == a.name) with
  | none => rfl
  | some d =>
    have hname : d.name = a.name := by simpa using List.find?_some hfind
    have hd : d ∈ definitions := List.mem_of_find?_eq_some hfind
    simp only
    apply flatMap_nil_of_forall
    intro usage husage
    cases hvar : lookupVariable vars usage.name with
    | none => rfl
    | some v =>
      have hvname : v.name = usage.name := by
        unfold lookupVariable at hvar
        simpa using List.find?_some hvar
      have hv : v ∈ vars := by
        unfold lookupVariable at hvar
        exact List.mem_of_find?_eq_some hvar
      have hallowed := h.compatible vars hvars a ha d hd hname usage
        (usedAt_of_valueUsages s _ _ _ usage husage) v hv hvname
      simp [variableAllowed_of_allowed hallowed]
theorem directives_position_valid {s : Schema} (doc : Document)
    {declared : List VariableDefinition → Prop} {location : DirectiveLocation}
    {directives : List Directive} (h : ValidDirectives s declared location directives) :
    PositionValid s doc declared (annotateDirectives s location directives) := by
  unfold annotateDirectives
  refine ⟨rfl, ?_, rfl, ?_, ?_⟩
  · rw [argumentFindings]
    apply flatMap_nil_of_forall
    intro use huse
    obtain ⟨d, hd, rfl⟩ := List.mem_map.mp huse
    obtain ⟨definition, hdef, _, hinv⟩ := h.declaredHere d hd
    simp only [hdef]
    exact invocationFindings_valid hinv
  · rw [directiveFindings, duplicates_eq_nil, flatMap_nil_of_forall]
    · rfl
    · intro use huse
      obtain ⟨d, hd, rfl⟩ := List.mem_map.mp huse
      obtain ⟨definition, hdef, hloc, _⟩ := h.declaredHere d hd
      simp [hdef, hloc]
    · rw [List.filterMap_map, List.Nodup, List.pairwise_filterMap]
      refine h.notRepeated.imp ?_
      intro d e hde b hb b' hb' hbb
      cases hd : s.lookupDirective d.name with
      | none => simp [hd] at hb
      | some dd =>
        cases he : s.lookupDirective e.name with
        | none => simp [he] at hb'
        | some ed =>
          simp only [Function.comp, hd, he] at hb hb'
          by_cases hrd : dd.repeatable = true
          · simp [hrd] at hb
          · by_cases hre : ed.repeatable = true
            · simp [hre] at hb'
            · simp only [hrd, hre] at hb hb'
              simp at hb hb'
              obtain ⟨definition, hdef, hrep⟩ := hde (by rw [hb, hb', hbb])
              rw [hd] at hdef
              cases hdef
              exact hrd hrep
  · intro vars hvars
    rw [positionUsageFindings]
    apply flatMap_nil_of_forall
    intro use huse
    obtain ⟨d, hd, rfl⟩ := List.mem_map.mp huse
    obtain ⟨definition, hdef, _, hinv⟩ := h.declaredHere d hd
    simp only [hdef]
    exact usageFindings_valid hvars hinv

/-! ### The annotated positions of a valid selection -/

theorem selectionSet_position_valid (s : Schema) (doc : Document)
    (declared : List VariableDefinition → Prop) (selections : List Selection)
    (h : ∀ x ∈ selections, ∀ y ∈ selections, Mergeable x y) :
    PositionValid s doc declared (.selectionSet selections) :=
  ⟨selectionSet_fieldFindings s selections h, rfl, rfl, rfl, fun _ _ => rfl⟩

theorem field_position_valid {s : Schema} (doc : Document)
    {declared : List VariableDefinition → Prop} {enclosing : Option String}
    (aliasName : Option String) {name : String} {arguments : List Argument}
    {selectionSet : List Selection}
    (h : ∀ t, enclosing = some t →
      (s.isUnion t = true → name = "__typename")
        ∧ ∃ d, s.lookupField t name = some d
          ∧ (s.isLeaf d.type.unwrapped = true → selectionSet = [])
          ∧ (s.isComposite d.type.unwrapped = true → selectionSet ≠ [])
          ∧ ValidInvocation s declared d.arguments arguments) :
    PositionValid s doc declared
      (.field enclosing aliasName name arguments (!selectionSet.isEmpty)
        (enclosing.bind fun t => s.lookupField t name)) := by
  cases enclosing with
  | none => exact ⟨rfl, rfl, rfl, rfl, fun _ _ => rfl⟩
  | some t =>
    obtain ⟨hunion, d, hd, hleaf, hcomp, hinv⟩ := h t rfl
    have hbind : ((some t : Option String).bind fun t => s.lookupField t name) = some d := hd
    rw [hbind]
    refine ⟨?_, ?_, rfl, rfl, ?_⟩
    · rw [fieldFindings]
      have hcond : (s.isUnion t && name != "__typename") = false := by
        cases hu : s.isUnion t with
        | false => rfl
        | true => simp [hunion hu]
      rw [hcond]
      simp only [Bool.false_eq_true, if_false]
      cases hl : s.isLeaf d.type.unwrapped with
      | true =>
        have hempty := hleaf hl
        subst hempty
        cases hc : s.isComposite d.type.unwrapped with
        | true => exact absurd rfl (hcomp hc)
        | false => simp
      | false =>
        cases hc : s.isComposite d.type.unwrapped with
        | true =>
          have hne := hcomp hc
          cases selectionSet with
          | nil => exact absurd rfl hne
          | cons x rest => simp
        | false => simp
    · rw [argumentFindings]
      exact invocationFindings_valid hinv
    · intro vars hvars
      rw [positionUsageFindings]
      exact usageFindings_valid hvars hinv

theorem overlaps_of_overlap {s : Schema} {a b : String} (h : Overlap s a b) :
    overlaps s a b = true := by
  obtain ⟨t, ha, hb⟩ := h
  unfold overlaps
  rw [List.any_eq_true]
  exact ⟨t, ha, by simpa using hb⟩

theorem spread_position_valid {s : Schema} {doc : Document}
    (declared : List VariableDefinition → Prop) {enclosing : Option String} {name : String}
    (hfrag : ∀ f ∈ doc.fragments, s.isComposite f.typeCondition = true)
    (hdefined : ∃ f ∈ doc.fragments, f.name = name)
    (h : ∀ t, enclosing = some t → ∀ f ∈ doc.fragments, f.name = name →
      Overlap s t f.typeCondition) :
    PositionValid s doc declared (.fragmentSpread enclosing name) := by
  refine ⟨rfl, rfl, ?_, rfl, fun _ _ => rfl⟩
  rw [fragmentPositionFindings]
  cases hfind : doc.lookupFragment name with
  | none =>
    obtain ⟨f, hf, hname⟩ := hdefined
    unfold Document.lookupFragment at hfind
    rw [List.find?_eq_none] at hfind
    have := hfind f hf
    simp [hname] at this
  | some f =>
    have hmem : f ∈ doc.fragments := by
      unfold Document.lookupFragment at hfind
      exact List.mem_of_find?_eq_some hfind
    have hname : f.name = name := by
      unfold Document.lookupFragment at hfind
      simpa using List.find?_some hfind
    cases enclosing with
    | none => rfl
    | some t => simp [hfrag f hmem, overlaps_of_overlap (h t rfl f hmem hname)]

theorem inline_position_valid {s : Schema} (doc : Document)
    (declared : List VariableDefinition → Prop) {enclosing typeCondition : Option String}
    (h : ∀ c, typeCondition = some c →
      s.isComposite c = true ∧ ∀ t, enclosing = some t → Overlap s t c) :
    PositionValid s doc declared (.inlineFragment enclosing typeCondition) := by
  refine ⟨rfl, rfl, ?_, rfl, fun _ _ => rfl⟩
  cases typeCondition with
  | none => rfl
  | some c =>
    obtain ⟨hc, hover⟩ := h c rfl
    cases enclosing with
    | none => simp [fragmentPositionFindings, hc]
    | some t => simp [fragmentPositionFindings, hc, overlaps_of_overlap (hover t rfl)]

mutual
theorem annotateSelection_valid {s : Schema} {doc : Document}
    (declared : List VariableDefinition → Prop)
    (hfrag : ∀ f ∈ doc.fragments, s.isComposite f.typeCondition = true) :
    ∀ (selection : Selection) (enclosing : Option String),
      ValidSelection s doc declared enclosing selection →
      ∀ p ∈ annotateSelection s enclosing selection, PositionValid s doc declared p
  | .field aliasName name arguments directives selectionSet, enclosing, h, p, hp => by
    rw [ValidSelection] at h
    obtain ⟨hfield, hdirs, hmerge, hrest⟩ := h
    rw [annotateSelection] at hp
    simp only [List.mem_cons] at hp
    rcases hp with rfl | rfl | rfl | hp
    · exact field_position_valid doc aliasName hfield
    · exact directives_position_valid doc hdirs
    · exact selectionSet_position_valid s doc declared selectionSet hmerge
    · exact annotateSelections_valid declared hfrag selectionSet _ hrest p hp
  | .fragmentSpread name directives, enclosing, h, p, hp => by
    rw [ValidSelection] at h
    rw [annotateSelection] at hp
    simp only [List.mem_cons, List.mem_singleton, List.not_mem_nil, or_false] at hp
    rcases hp with rfl | rfl
    · exact spread_position_valid declared hfrag h.1 h.2.1
    · exact directives_position_valid doc h.2.2
  | .inlineFragment typeCondition directives selectionSet, enclosing, h, p, hp => by
    rw [ValidSelection] at h
    obtain ⟨hcond, hdirs, hmerge, hrest⟩ := h
    rw [annotateSelection] at hp
    simp only [List.mem_cons] at hp
    rcases hp with rfl | rfl | rfl | hp
    · exact inline_position_valid doc declared hcond
    · exact directives_position_valid doc hdirs
    · exact selectionSet_position_valid s doc declared selectionSet hmerge
    · exact annotateSelections_valid declared hfrag selectionSet _ hrest p hp
theorem annotateSelections_valid {s : Schema} {doc : Document}
    (declared : List VariableDefinition → Prop)
    (hfrag : ∀ f ∈ doc.fragments, s.isComposite f.typeCondition = true) :
    ∀ (selections : List Selection) (enclosing : Option String),
      ValidSelections s doc declared enclosing selections →
      ∀ p ∈ annotateSelections s enclosing selections, PositionValid s doc declared p
  | [], _, _, p, hp => by
    rw [annotateSelections] at hp
    cases hp
  | selection :: rest, enclosing, h, p, hp => by
    rw [ValidSelections] at h
    rw [annotateSelections, List.mem_append] at hp
    rcases hp with hp | hp
    · exact annotateSelection_valid declared hfrag selection enclosing h.1 p hp
    · exact annotateSelections_valid declared hfrag rest enclosing h.2 p hp
end

/-! ### Operations and fragment definitions -/

theorem annotateDirectives_variables (s : Schema) (location : DirectiveLocation)
    (directives : List Directive) :
    positionVariables (annotateDirectives s location directives)
      = directiveVariables directives := by
  unfold annotateDirectives directiveVariables
  rw [positionVariables]
  induction directives with
  | nil => rfl
  | cons d rest ih => simp only [List.map_cons, List.flatMap_cons, ih]

mutual
theorem annotateSelection_variables (s : Schema) :
    ∀ (selection : Selection) (enclosing : Option String),
      (annotateSelection s enclosing selection).flatMap positionVariables
        = selectionVariables selection
  | .field aliasName name arguments directives selectionSet, enclosing => by
    rw [annotateSelection, selectionVariables]
    simp only [List.flatMap_cons, annotateDirectives_variables,
      annotateSelections_variables s selectionSet]
    simp [positionVariables]
  | .fragmentSpread name directives, enclosing => by
    rw [annotateSelection, selectionVariables]
    simp only [List.flatMap_cons, annotateDirectives_variables]
    simp [positionVariables]
  | .inlineFragment typeCondition directives selectionSet, enclosing => by
    rw [annotateSelection, selectionVariables]
    simp only [List.flatMap_cons, annotateDirectives_variables,
      annotateSelections_variables s selectionSet]
    simp [positionVariables]
theorem annotateSelections_variables (s : Schema) :
    ∀ (selections : List Selection) (enclosing : Option String),
      (annotateSelections s enclosing selections).flatMap positionVariables
        = selectionSetVariables selections
  | [], _ => by
    rw [annotateSelections, selectionSetVariables]
    rfl
  | selection :: rest, enclosing => by
    rw [annotateSelections, selectionSetVariables, List.flatMap_append,
      annotateSelection_variables s selection, annotateSelections_variables s rest]
end

theorem annotateOperation_variables (s : Schema) (op : OperationDefinition) :
    (annotateOperation s op).positions.flatMap positionVariables = operationVariables op := by
  unfold annotateOperation operationVariables
  simp only [List.flatMap_cons, List.flatMap_append, annotateDirectives_variables,
    annotateSelections_variables]
  have hvars : ∀ vs : List VariableDefinition,
      (vs.map fun v => annotateDirectives s .variableDefinition v.directives).flatMap
          positionVariables
        = vs.flatMap fun v => directiveVariables v.directives := by
    intro vs
    induction vs with
    | nil => rfl
    | cons v rest ih =>
      simp only [List.map_cons, List.flatMap_cons, ih, annotateDirectives_variables]
  rw [hvars]
  simp [positionVariables, List.append_assoc]

theorem annotateFragment_variables (s : Schema) (f : FragmentDefinition) :
    (annotateFragment s f).positions.flatMap positionVariables = fragmentVariables f := by
  unfold annotateFragment fragmentVariables
  simp only [List.flatMap_cons, annotateDirectives_variables, annotateSelections_variables]
  simp [positionVariables]

theorem annotateOperation_valid {s : Schema} {doc : Document} (h : ValidDocument s doc)
    {op : OperationDefinition} (hop : op ∈ doc.operations) :
    ∀ p ∈ (annotateOperation s op).positions, PositionValid s doc (declaredBy op) p := by
  have hv := h.operations op hop
  intro p hp
  unfold annotateOperation at hp
  simp only [List.mem_cons, List.mem_append, List.mem_map] at hp
  rcases hp with (rfl | ⟨v, hvmem, rfl⟩) | rfl | hp
  · exact directives_position_valid doc hv.directives
  · exact directives_position_valid doc (hv.variableDirectives v hvmem)
  · exact selectionSet_position_valid s doc _ _ hv.mergeable
  · exact annotateSelections_valid _ (fun f hf => (h.fragments f hf).composite) _ _
      hv.selections p hp

theorem annotateFragment_valid {s : Schema} {doc : Document} (h : ValidDocument s doc)
    {f : FragmentDefinition} (hf : f ∈ doc.fragments) :
    ∀ p ∈ (annotateFragment s f).positions, PositionValid s doc (declaredAround doc f) p := by
  have hv := h.fragments f hf
  intro p hp
  unfold annotateFragment at hp
  simp only [List.mem_cons] at hp
  rcases hp with rfl | rfl | hp
  · exact directives_position_valid doc hv.directives
  · exact selectionSet_position_valid s doc _ _ hv.mergeable
  · exact annotateSelections_valid _ (fun g hg => (h.fragments g hg).composite) _ _
      hv.selections p hp

theorem typeInfo_positions_valid {s : Schema} {doc : Document} (h : ValidDocument s doc) :
    ∀ p ∈ (newTypeInfo doc s).positions, ∃ declared, PositionValid s doc declared p := by
  intro p hp
  unfold TypeInfo.positions newTypeInfo at hp
  simp only [List.mem_append, List.mem_flatMap, List.mem_map] at hp
  rcases hp with ⟨info, ⟨op, hop, rfl⟩, hp⟩ | ⟨info, ⟨f, hf, rfl⟩, hp⟩
  · exact ⟨_, annotateOperation_valid h hop p hp⟩
  · exact ⟨_, annotateFragment_valid h hf p hp⟩

theorem validateFields_valid {s : Schema} {doc : Document} (h : ValidDocument s doc) :
    validateFields doc s (newTypeInfo doc s) = [] := by
  unfold validateFields
  apply flatMap_nil_of_forall
  intro p hp
  obtain ⟨_, hv⟩ := typeInfo_positions_valid h p hp
  exact hv.fields

theorem validateArguments_valid {s : Schema} {doc : Document} (h : ValidDocument s doc) :
    validateArguments doc s (newTypeInfo doc s) = [] := by
  unfold validateArguments
  apply flatMap_nil_of_forall
  intro p hp
  obtain ⟨_, hv⟩ := typeInfo_positions_valid h p hp
  exact hv.arguments

theorem validateDirectives_valid {s : Schema} {doc : Document} (h : ValidDocument s doc) :
    validateDirectives doc s (newTypeInfo doc s) = [] := by
  unfold validateDirectives
  apply flatMap_nil_of_forall
  intro p hp
  obtain ⟨_, hv⟩ := typeInfo_positions_valid h p hp
  exact hv.directives

/-! ### Fragment usage and fragment cycles -/

theorem mem_spreadsOf {doc : Document} {a b : String} :
    b ∈ doc.spreadsOf a ↔ Spreads doc a b := by
  unfold Document.spreadsOf Spreads
  simp only [List.mem_flatMap, List.mem_filter, beq_iff_eq]
  constructor
  · rintro ⟨f, ⟨hf, hname⟩, hb⟩
    exact ⟨f, hf, hname, hb⟩
  · rintro ⟨f, hf, hname, hb⟩
    exact ⟨f, ⟨hf, hname⟩, hb⟩

theorem subset_spreadClosure (doc : Document) (fuel : Nat) (names : List String) :
    ∀ x ∈ names, x ∈ spreadClosure doc fuel names := by
  intro x hx
  cases fuel with
  | zero => exact hx
  | succ k =>
    rw [spreadClosure]
    exact List.mem_append_left _ hx

/-- Soundness of the closure: a name it contains is reached from one of the start names
by following spreads. -/
theorem reaches_of_mem_spreadClosure (doc : Document) :
    ∀ (fuel : Nat) (names : List String) (x : String), x ∈ spreadClosure doc fuel names →
      ∃ start ∈ names, Relation.ReflTransGen (Spreads doc) start x
  | 0, names, x, hx => ⟨x, hx, Relation.ReflTransGen.refl⟩
  | fuel + 1, names, x, hx => by
    rw [spreadClosure, List.mem_append] at hx
    rcases hx with hx | hx
    · exact ⟨x, hx, Relation.ReflTransGen.refl⟩
    · obtain ⟨start, hstart, hreach⟩ := reaches_of_mem_spreadClosure doc fuel _ x hx
      obtain ⟨a, ha, hspread⟩ := List.mem_flatMap.mp hstart
      exact ⟨a, ha, Relation.ReflTransGen.head (mem_spreadsOf.mp hspread) hreach⟩

/-- A path of spreads from `a` to `b` whose successive sources are the names in the
list. -/
theorem pathVia_closure (doc : Document) :
    ∀ (path : List String) (fuel : Nat) (names : List String) (a b : String),
      PathVia doc path a b → a ∈ names → path.length ≤ fuel → b ∈ spreadClosure doc fuel names
  | [], fuel, names, a, b, hpath, ha, _ => by
    simp only [PathVia] at hpath
    subst hpath
    exact subset_spreadClosure doc fuel names a ha
  | x :: rest, 0, _, _, _, _, _, hlen => by simp at hlen
  | x :: rest, fuel + 1, names, a, b, hpath, ha, hlen => by
    rw [PathVia] at hpath
    obtain ⟨_, y, hspread, hrest⟩ := hpath
    rw [spreadClosure]
    apply List.mem_append_right
    refine pathVia_closure doc rest fuel _ y b hrest ?_ ?_
    · exact List.mem_flatMap.mpr ⟨a, ha, mem_spreadsOf.mpr hspread⟩
    · simpa using hlen

theorem pathVia_suffix (doc : Document) :
    ∀ (path : List String) (a b c : String), PathVia doc path c b → a ∈ path →
      ∃ path', path' <:+ path ∧ PathVia doc path' a b
  | [], _, _, _, _, ha => by cases ha
  | x :: rest, a, b, c, hpath, ha => by
    by_cases hax : a = x
    · subst hax
      refine ⟨a :: rest, List.suffix_refl _, ?_⟩
      rw [PathVia] at hpath ⊢
      obtain ⟨hxc, y, hspread, hrest⟩ := hpath
      subst hxc
      exact ⟨rfl, y, hspread, hrest⟩
    · have harest : a ∈ rest := by
        rcases List.mem_cons.mp ha with h | h
        · exact absurd h hax
        · exact h
      rw [PathVia] at hpath
      obtain ⟨_, y, _, hrest⟩ := hpath
      obtain ⟨path', hsuffix, hpath'⟩ := pathVia_suffix doc rest a b y hrest harest
      exact ⟨path', hsuffix.trans (List.suffix_cons x rest), hpath'⟩

/-- Whatever is reached by following spreads is reached along a path that visits no
fragment twice. -/
theorem simple_path_of_reaches (doc : Document) {a b : String}
    (h : Relation.ReflTransGen (Spreads doc) a b) :
    ∃ path : List String, path.Nodup
      ∧ (∀ x ∈ path, x ∈ doc.fragments.map fun f => f.name)
      ∧ PathVia doc path a b := by
  induction h using Relation.ReflTransGen.head_induction_on with
  | refl =>
    refine ⟨[], List.nodup_nil, ?_, ?_⟩
    · intro x hx
      cases hx
    · simp [PathVia]
  | @head a c hspread _ ih =>
    obtain ⟨path, hnodup, hnames, hpath⟩ := ih
    by_cases ha : a ∈ path
    · obtain ⟨path', hsuffix, hpath'⟩ := pathVia_suffix doc path a b c hpath ha
      exact ⟨path', hnodup.sublist hsuffix.sublist,
        fun x hx => hnames x (hsuffix.subset hx), hpath'⟩
    · refine ⟨a :: path, List.nodup_cons.mpr ⟨ha, hnodup⟩, ?_, ?_⟩
      · intro x hx
        rcases List.mem_cons.mp hx with rfl | hx
        · obtain ⟨f, hf, hname, _⟩ := hspread
          exact List.mem_map.mpr ⟨f, hf, hname⟩
        · exact hnames x hx
      · rw [PathVia]
        exact ⟨rfl, c, hspread, hpath⟩

/-- Completeness of the closure: as many rounds as the document has fragment definitions
reach everything that is reached by following spreads. -/
theorem mem_spreadClosure_of_reaches (doc : Document) {names : List String} {a b : String}
    (ha : a ∈ names) (h : Relation.ReflTransGen (Spreads doc) a b) :
    b ∈ spreadClosure doc doc.fragments.length names := by
  obtain ⟨path, hnodup, hnames, hpath⟩ := simple_path_of_reaches doc h
  refine pathVia_closure doc path _ names a b hpath ha ?_
  have hle := (List.subperm_of_subset hnodup hnames).length_le
  simpa using hle

/-! ### The positions inside an operation -/

theorem mem_includedFragments {doc : Document} {op : OperationDefinition} {name : String} :
    name ∈ includedFragments doc op ↔ Includes doc op name := by
  unfold includedFragments Includes
  constructor
  · exact reaches_of_mem_spreadClosure doc _ _ name
  · rintro ⟨start, hstart, hreach⟩
    exact mem_spreadClosure_of_reaches doc hstart hreach

theorem mem_operationPositions {s : Schema} {doc : Document} {op : OperationDefinition}
    {p : Position} :
    p ∈ operationPositions doc (newTypeInfo doc s) (annotateOperation s op)
      ↔ p ∈ (annotateOperation s op).positions
        ∨ ∃ f ∈ doc.fragments, Includes doc op f.name ∧ p ∈ (annotateFragment s f).positions := by
  unfold operationPositions newTypeInfo
  simp only [List.mem_append, List.mem_flatMap, List.mem_filter, List.mem_map]
  constructor
  · rintro (hp | ⟨fragmentInfo, ⟨⟨f, hf, rfl⟩, hinc⟩, hp⟩)
    · exact Or.inl hp
    · have hcontains : (includedFragments doc op).contains f.name = true := hinc
      exact Or.inr ⟨f, hf, mem_includedFragments.mp (by simpa using hcontains), hp⟩
  · rintro (hp | ⟨f, hf, hinc, hp⟩)
    · exact Or.inl hp
    · have hcontains : (includedFragments doc op).contains f.name = true := by
        simpa using mem_includedFragments.mpr hinc
      exact Or.inr ⟨annotateFragment s f, ⟨⟨f, hf, rfl⟩, hcontains⟩, hp⟩

theorem mem_operationPositions_variables {s : Schema} {doc : Document}
    {op : OperationDefinition} {name : String} :
    name ∈ (operationPositions doc (newTypeInfo doc s) (annotateOperation s op)).flatMap
        positionVariables
      ↔ ReferencedIn doc op name := by
  unfold ReferencedIn
  rw [← annotateOperation_variables s op]
  simp only [List.mem_flatMap, mem_operationPositions]
  constructor
  · rintro ⟨p, hp | ⟨f, hf, hinc, hp⟩, hname⟩
    · exact Or.inl ⟨p, hp, hname⟩
    · refine Or.inr ⟨f, hf, hinc, ?_⟩
      rw [← annotateFragment_variables s f]
      exact List.mem_flatMap.mpr ⟨p, hp, hname⟩
  · rintro (⟨p, hp, hname⟩ | ⟨f, hf, hinc, hname⟩)
    · exact ⟨p, Or.inl hp, hname⟩
    · rw [← annotateFragment_variables s f] at hname
      obtain ⟨p, hp, hname⟩ := List.mem_flatMap.mp hname
      exact ⟨p, Or.inr ⟨f, hf, hinc, hp⟩, hname⟩

theorem validateVariables_valid {s : Schema} {doc : Document} (h : ValidDocument s doc) :
    validateVariables doc s (newTypeInfo doc s) = [] := by
  unfold validateVariables
  apply flatMap_nil_of_forall
  intro info hinfo
  have hinfo' : info ∈ doc.operations.map (annotateOperation s) := hinfo
  obtain ⟨op, hop, rfl⟩ := List.mem_map.mp hinfo'
  have hv := h.operations op hop
  have hop' : (annotateOperation s op).operation = op := rfl
  unfold operationVariableFindings
  rw [hop', map_filter_nil_of_forall, map_filter_nil_of_forall, flatMap_nil_of_forall]
  · rfl
  · intro p hp
    rcases mem_operationPositions.mp hp with hp | ⟨f, hf, hinc, hp⟩
    · exact (annotateOperation_valid h hop p hp).usages _ rfl
    · exact (annotateFragment_valid h hf p hp).usages _ ⟨op, hop, hinc, rfl⟩
  · intro v hvmem
    have hused : v.name ∈ (operationPositions doc (newTypeInfo doc s)
        (annotateOperation s op)).flatMap positionVariables :=
      mem_operationPositions_variables.mpr (hv.variablesUsed v hvmem)
    simpa using hused
  · intro name hname
    obtain ⟨v, hvmem, hvname⟩ :=
      hv.variablesDeclared name (mem_operationPositions_variables.mp hname)
    cases hfind : lookupVariable op.variableDefinitions name with
    | some _ => rfl
    | none =>
      unfold lookupVariable at hfind
      rw [List.find?_eq_none] at hfind
      have := hfind v hvmem
      simp [hvname] at this

theorem validateFragments_valid {s : Schema} {doc : Document} (h : ValidDocument s doc) :
    validateFragments doc s (newTypeInfo doc s) = [] := by
  unfold validateFragments
  rw [flatMap_nil_of_forall, flatMap_nil_of_forall]
  · rfl
  · intro p hp
    obtain ⟨_, hv⟩ := typeInfo_positions_valid h p hp
    exact hv.fragments
  · intro f hf
    have hv := h.fragments f hf
    have hused : (usedFragments doc).contains f.name = true := by
      obtain ⟨op, hop, start, hstart, hreach⟩ := hv.used
      have hmem : f.name ∈ usedFragments doc :=
        mem_spreadClosure_of_reaches doc (List.mem_flatMap.mpr ⟨op, hop, hstart⟩) hreach
      simpa using hmem
    have hcycle : spreadsItself doc f.name = false := by
      cases hself : spreadsItself doc f.name with
      | false => rfl
      | true =>
        have hmem : f.name ∈ spreadClosure doc doc.fragments.length (doc.spreadsOf f.name) := by
          simpa [spreadsItself] using hself
        obtain ⟨start, hstart, hreach⟩ := reaches_of_mem_spreadClosure doc _ _ _ hmem
        exact absurd (Relation.TransGen.head' (mem_spreadsOf.mp hstart) hreach) hv.acyclic
    unfold fragmentDefinitionFindings
    rw [hused, hcycle, hv.composite]
    rfl


/-! ### Valid documents are accepted -/

theorem validInvocation_nil (s : Schema) (declared : List VariableDefinition → Prop) :
    ValidInvocation s declared [] [] :=
  { known := fun _ h => by cases h
    required := fun _ h => by cases h
    unique := List.nodup_nil
    coerce := fun _ h => by cases h
    compatible := fun _ _ _ h => by cases h }

theorem validDirectives_nil (s : Schema) (declared : List VariableDefinition → Prop)
    (location : DirectiveLocation) : ValidDirectives s declared location [] :=
  { declaredHere := fun _ h => by cases h
    notRepeated := List.Pairwise.nil }

/-- The arguments of two invocations are identical when each list holds the arguments of
the other, in whatever order. -/
theorem identicalArguments_of_subset {as bs : List Argument} (hab : as ⊆ bs) (hba : bs ⊆ as) :
    IdenticalArguments as bs :=
  ⟨fun a ha => ⟨a, hab ha, rfl, SameValue.same _⟩,
    fun b hb => ⟨b, hba hb, rfl, SameValue.same _⟩⟩

/-- The operation of `{ foo }` satisfies the rules for operations. -/
theorem fooDocument_operation :
    ValidOperation testSchema fooDocument
      { operationType := .query, name := none, variableDefinitions := [], directives := [],
        selectionSet := [.field none "foo" [] [] []] } where
  rootDefined := ⟨"Query", rfl⟩
  singleRoot := fun h => by cases h
  directives := validDirectives_nil _ _ _
  variableDirectives := fun _ h => by cases h
  mergeable := by
    intro x hx y hy
    rw [List.mem_singleton] at hx hy
    subst hx
    subst hy
    exact Mergeable.sameField (identicalArguments_of_subset (fun _ h => h) fun _ h => h)
      fun _ h => absurd h (List.not_mem_nil _)
  selections := by
    rw [ValidSelections, ValidSelection]
    refine ⟨⟨?_, validDirectives_nil _ _ _, fun _ h => absurd h (List.not_mem_nil _), ?_⟩, ?_⟩
    · intro t ht
      cases ht
      refine ⟨fun hunion => absurd hunion (by decide),
        { name := "foo", arguments := [], type := .named "Boolean" }, rfl,
        fun _ => rfl, fun hcomposite => absurd hcomposite (by decide), validInvocation_nil _ _⟩
    · rw [ValidSelections]
      trivial
    · rw [ValidSelections]
      trivial
  variablesDeclared := by
    intro name hname
    rcases hname with hname | ⟨f, hf, _⟩
    · cases hname
    · cases hf
  variablesUsed := fun _ h => by cases h

/-- The operation of `subscription { time }` satisfies the rules for operations. -/
theorem timeDocument_operation :
    ValidOperation testSchema timeDocument
      { operationType := .subscription, name := none, variableDefinitions := [],
        directives := [], selectionSet := [.field none "time" [] [] []] } where
  rootDefined := ⟨"Subscription", rfl⟩
  singleRoot := fun _ => rfl
  directives := validDirectives_nil _ _ _
  variableDirectives := fun _ h => by cases h
  mergeable := by
    intro x hx y hy
    rw [List.mem_singleton] at hx hy
    subst hx
    subst hy
    exact Mergeable.sameField (identicalArguments_of_subset (fun _ h => h) fun _ h => h)
      fun _ h => absurd h (List.not_mem_nil _)
  selections := by
    rw [ValidSelections, ValidSelection]
    refine ⟨⟨?_, validDirectives_nil _ _ _, fun _ h => absurd h (List.not_mem_nil _), ?_⟩, ?_⟩
    · intro t ht
      cases ht
      refine ⟨fun hunion => absurd hunion (by decide),
        { name := "time", arguments := [], type := .nonNull (.named "DateTime") }, rfl,
        fun _ => rfl, fun hcomposite => absurd hcomposite (by decide), validInvocation_nil _ _⟩
    · rw [ValidSelections]
      trivial
    · rw [ValidSelections]
      trivial
  variablesDeclared := by
    intro name hname
    rcases hname with hname | ⟨f, hf, _⟩
    · cases hname
    · cases hf
  variablesUsed := fun _ h => by cases h

/-- The document `{ foo }` is valid for the schema of `TestGraphQLWS`. -/
theorem fooDocument_valid : ValidDocument testSchema fooDocument where
  loneAnonymous := fun _ _ _ => by decide
  operationNames := by decide
  fragmentNames := by decide
  operations := by
    intro op hop
    rw [fooDocument, List.mem_singleton] at hop
    subst hop
    exact fooDocument_operation
  fragments := fun _ h => by cases h

/-- The document `subscription { time }` is valid for the schema of `TestGraphQLWS`. -/
theorem timeDocument_valid : ValidDocument testSchema timeDocument where
  loneAnonymous := fun _ _ _ => by decide
  operationNames := by decide
  fragmentNames := by decide
  operations := by
    intro op hop
    rw [timeDocument, List.mem_singleton] at hop
    subst hop
    exact timeDocument_operation
  fragments := fun _ h => by cases h

/-- The operation of `skipDocument` includes its fragment `F`. -/
theorem skipDocument_includes : Includes skipDocument skipOperation skipFragment.name :=
  ⟨"F", by decide, Relation.ReflTransGen.refl⟩

/-- The invocation `skip(if: $b)` in the fragment of `skipDocument` satisfies the rules for
arguments and variables: every operation that includes the fragment declares
`$b: Boolean!`. -/
theorem skipDocument_invocation :
    ValidInvocation exampleSchema (declaredAround skipDocument skipFragment)
      [{ name := "if", type := .nonNull (.named "Boolean"), defaultValue := none }]
      [⟨"if", .variable "b"⟩] where
  known := by
    intro a ha
    rw [List.mem_singleton] at ha
    subst ha
    exact ⟨_, List.mem_singleton.mpr rfl, rfl⟩
  required := by
    intro d hd _
    rw [List.mem_singleton] at hd
    subst hd
    exact ⟨_, List.mem_singleton.mpr rfl, rfl⟩
  unique := by decide
  coerce := by
    intro a ha d _ _
    rw [List.mem_singleton] at ha
    subst ha
    exact Coerces.var
  compatible := by
    intro vars hvars a ha d hd _ usage hused v hv _
    obtain ⟨op, hop, _, rfl⟩ := hvars
    rw [skipDocument, List.mem_singleton] at hop
    subst hop
    rw [List.mem_singleton] at ha hd
    subst ha
    subst hd
    rw [skipOperation, List.mem_singleton] at hv
    subst hv
    cases hused
    exact Or.inl (TypesMatch.nonNull TypesMatch.named)

/-- The operation of `skipDocument` satisfies the rules for operations: its variable is
referenced in the fragment that it includes. -/
theorem skipDocument_operation : ValidOperation exampleSchema skipDocument skipOperation where
  rootDefined := ⟨"Query", rfl⟩
  singleRoot := fun h => by cases h
  directives := validDirectives_nil _ _ _
  variableDirectives := by
    intro v hv
    rw [skipOperation, List.mem_singleton] at hv
    subst hv
    exact validDirectives_nil _ _ _
  mergeable := by
    intro x hx y hy
    rw [skipOperation, List.mem_singleton] at hx
    subst hx
    exact Mergeable.spreadLeft
  selections := by
    rw [skipOperation]
    simp only [ValidSelections, ValidSelection]
    refine ⟨⟨⟨skipFragment, List.mem_singleton.mpr rfl, rfl⟩, ?_, validDirectives_nil _ _ _⟩,
      trivial⟩
    intro t ht f hf _
    cases ht
    rw [skipDocument, List.mem_singleton] at hf
    subst hf
    exact ⟨"Query", by decide, by decide⟩
  variablesDeclared := by
    intro name hname
    rcases hname with hname | ⟨f, hf, _, hname⟩
    · cases hname
    · rw [skipDocument, List.mem_singleton] at hf
      subst hf
      have hvars : fragmentVariables skipFragment = ["b"] := by decide
      rw [hvars, List.mem_singleton] at hname
      subst hname
      exact ⟨_, List.mem_singleton.mpr rfl, rfl⟩
  variablesUsed := by
    intro v hv
    rw [skipOperation, List.mem_singleton] at hv
    subst hv
    exact Or.inr ⟨skipFragment, List.mem_singleton.mpr rfl, skipDocument_includes, by decide⟩

/-- The fragment definition of `skipDocument` satisfies the rules for fragments. -/
theorem skipDocument_fragment : ValidFragment exampleSchema skipDocument skipFragment where
  composite := by decide
  used := ⟨skipOperation, List.mem_singleton.mpr rfl, skipDocument_includes⟩
  acyclic := by
    intro hcycle
    obtain ⟨c, ⟨f, hf, _, hc⟩, _⟩ := Relation.TransGen.head'_iff.mp hcycle
    rw [skipDocument, List.mem_singleton] at hf
    subst hf
    simp [skipFragment, spreadsList, spreads] at hc
  directives := validDirectives_nil _ _ _
  mergeable := by
    intro x hx y hy
    rw [skipFragment, List.mem_singleton] at hx hy
    subst hx
    subst hy
    exact Mergeable.sameField (identicalArguments_of_subset (fun _ h => h) fun _ h => h)
      fun _ h => absurd h (List.not_mem_nil _)
  selections := by
    rw [skipFragment]
    simp only [ValidSelections, ValidSelection]
    refine ⟨⟨?_, ?_, fun _ h => absurd h (List.not_mem_nil _), trivial⟩, trivial⟩
    · intro t ht
      cases ht
      exact ⟨fun hunion => absurd hunion (by decide),
        { name := "foo", arguments := [], type := .named "Boolean" }, rfl,
        fun _ => trivial, fun hcomposite => absurd hcomposite (by decide),
        validInvocation_nil _ _⟩
    · refine { declaredHere := ?_, notRepeated := List.pairwise_singleton _ _ }
      intro d hd
      rw [List.mem_singleton] at hd
      subst hd
      exact ⟨_, rfl, by decide, skipDocument_invocation⟩

/-- The document `skipDocument`, whose variable is used only in a fragment that the
operation includes, is valid. -/
theorem skipDocument_valid : ValidDocument exampleSchema skipDocument where
  loneAnonymous := by
    intro op hop hname
    rw [skipDocument, List.mem_singleton] at hop
    subst hop
    cases hname
  operationNames := by decide
  fragmentNames := by decide
  operations := by
    intro op hop
    rw [skipDocument, List.mem_singleton] at hop
    subst hop
    exact skipDocument_operation
  fragments := by
    intro f hf
    rw [skipDocument, List.mem_singleton] at hf
    subst hf
    exact skipDocument_fragment

/-- An invocation of `both` with the arguments `a: 1` and `b: 2`, in either order,
satisfies the rules for arguments and variables. -/
theorem bothDocument_invocation (declared : List VariableDefinition → Prop)
    (arguments : List Argument)
    (h : arguments = [⟨"a", .int 1⟩, ⟨"b", .int 2⟩]
      ∨ arguments = [⟨"b", .int 2⟩, ⟨"a", .int 1⟩]) :
    ValidInvocation exampleSchema declared
      [ { name := "a", type := .named "Int", defaultValue := none },
        { name := "b", type := .named "Int", defaultValue := none } ]
      arguments where
  known := by
    intro a ha
    rcases h with rfl | rfl <;>
      simp only [List.mem_cons, List.mem_singleton, List.not_mem_nil, or_false] at ha <;>
      rcases ha with rfl | rfl <;> simp
  required := by
    intro d hd hrequired
    simp only [List.mem_cons, List.mem_singleton, List.not_mem_nil, or_false] at hd
    rcases hd with rfl | rfl <;> cases hrequired
  unique := by
    rcases h with rfl | rfl <;> decide
  coerce := by
    intro a ha d hd hname
    have hint : ∃ i, a.value = .int i := by
      rcases h with rfl | rfl <;>
        simp only [List.mem_cons, List.mem_singleton, List.not_mem_nil, or_false] at ha <;>
        rcases ha with rfl | rfl <;> exact ⟨_, rfl⟩
    obtain ⟨i, hi⟩ := hint
    rw [hi]
    simp only [List.mem_cons, List.mem_singleton, List.not_mem_nil, or_false] at hd
    rcases hd with rfl | rfl <;> exact @Coerces.int _ _ _ [LiteralKind.int] rfl (by decide)
  compatible := by
    intro vars _ a ha d _ _ usage hused
    have hint : ∃ i, a.value = .int i := by
      rcases h with rfl | rfl <;>
        simp only [List.mem_cons, List.mem_singleton, List.not_mem_nil, or_false] at ha <;>
        rcases ha with rfl | rfl <;> exact ⟨_, rfl⟩
    obtain ⟨i, hi⟩ := hint
    rw [hi] at hused
    cases hused

/-- The two selections of `both` in `bothDocument` have identical arguments, whichever
comes first. -/
theorem bothDocument_mergeable :
    ∀ x ∈ bothOperation.selectionSet, ∀ y ∈ bothOperation.selectionSet, Mergeable x y := by
  intro x hx y hy
  simp only [bothOperation, List.mem_cons, List.mem_singleton, List.not_mem_nil,
    or_false] at hx hy
  rcases hx with rfl | rfl <;> rcases hy with rfl | rfl <;>
    refine Mergeable.sameField (identicalArguments_of_subset ?_ ?_)
      (fun _ h => absurd h (List.not_mem_nil _)) <;>
    intro a ha <;>
    simp only [List.mem_cons, List.mem_singleton, List.not_mem_nil, or_false] at ha ⊢ <;>
    tauto

/-- The operation of `bothDocument` satisfies the rules for operations. -/
theorem bothDocument_operation : ValidOperation exampleSchema bothDocument bothOperation where
  rootDefined := ⟨"Query", rfl⟩
  singleRoot := fun h => by cases h
  directives := validDirectives_nil _ _ _
  variableDirectives := fun _ h => by cases h
  mergeable := bothDocument_mergeable
  selections := by
    rw [bothOperation]
    simp only [ValidSelections, ValidSelection]
    refine ⟨⟨?_, validDirectives_nil _ _ _, fun _ h => absurd h (List.not_mem_nil _), trivial⟩,
      ⟨?_, validDirectives_nil _ _ _, fun _ h => absurd h (List.not_mem_nil _), trivial⟩,
      trivial⟩
    · intro t ht
      cases ht
      exact ⟨fun hunion => absurd hunion (by decide), _, rfl,
        fun _ => trivial, fun hcomposite => absurd hcomposite (by decide),
        bothDocument_invocation _ _ (Or.inl rfl)⟩
    · intro t ht
      cases ht
      exact ⟨fun hunion => absurd hunion (by decide), _, rfl,
        fun _ => trivial, fun hcomposite => absurd hcomposite (by decide),
        bothDocument_invocation _ _ (Or.inr rfl)⟩
  variablesDeclared := by
    intro name hname
    rcases hname with hname | ⟨f, hf, _⟩
    · have hvars : operationVariables bothOperation = [] := by decide
      rw [hvars] at hname
      cases hname
    · cases hf
  variablesUsed := fun _ h => by cases h

/-- The document `bothDocument`, which selects one field twice with the same arguments in
another order, is valid. -/
theorem bothDocument_valid : ValidDocument exampleSchema bothDocument where
  loneAnonymous := fun _ _ _ => by decide
  operationNames := by decide
  fragmentNames := by decide
  operations := by
    intro op hop
    rw [bothDocument, List.mem_singleton] at hop
    subst hop
    exact bothDocument_operation
  fragments := fun _ h => by cases h

/-- The scenario of section 8 of the specification: `{ foo bar }` yields one unknown-field
finding, for `bar`. -/
theorem fooBarDocument_findings :
    ValidateDocument passes fooBarDocument testSchema
      = [primaryFinding "unknown field bar on type Query"] := by
  decide

/-- The scenario of section 8 of the specification: `subscription { time time }` yields
one operation-shape finding and no merge conflict. -/
theorem timeTimeDocument_findings :
    ValidateDocument passes timeTimeDocument testSchema
      = [primaryFinding "a subscription must have exactly one root selection"] := by
  decide

/-- A variable referenced only in a fragment that the operation includes must be declared
by the operation: `nowhereDocument` yields one undeclared-variable finding. -/
theorem nowhereDocument_findings :
    ValidateDocument passes nowhereDocument exampleSchema
      = [primaryFinding "undeclared variable nowhere"] := by
  decide

/-- The scenario of section 8 of the specification: a variable declared as `String` used for
an argument of type `String!` yields one variable-type-incompatible finding. -/
theorem stringDocument_findings :
    ValidateDocument passes stringDocument echoSchema
      = [primaryFinding "variable s cannot be used for argument text"] := by
  decide

/-- The seven passes report nothing for a valid document. -/
theorem passOutputs_valid {s : Schema} {doc : Document} (h : ValidDocument s doc) :
    passOutputs passes doc s = [[], [], [], [], [], [], []] := by
  unfold passOutputs
  have hti : passes.newTypeInfo doc s = newTypeInfo doc s := rfl
  rw [hti]
  have h1 : passes.validateDocument doc s (newTypeInfo doc s) = [] :=
    validateDocument_valid h (newTypeInfo doc s)
  have h2 : passes.validateOperations doc s (newTypeInfo doc s) = [] :=
    validateOperations_valid h (newTypeInfo doc s)
  have h3 : passes.validateFields doc s (newTypeInfo doc s) = [] := validateFields_valid h
  have h4 : passes.validateArguments doc s (newTypeInfo doc s) = [] :=
    validateArguments_valid h
  have h5 : passes.validateFragments doc s (newTypeInfo doc s) = [] :=
    validateFragments_valid h
  have h6 : passes.validateDirectives doc s (newTypeInfo doc s) = [] :=
    validateDirectives_valid h
  have h7 : passes.validateVariables doc s (newTypeInfo doc s) = [] :=
    validateVariables_valid h
  rw [h1, h2, h3, h4, h5, h6, h7]

/-- C10: for every valid document conforming to a schema, that is every document that
satisfies the rules of sections 4.2 to 4.8 of the specification, `ValidateDocument`, run
with the Type Info Resolver and the seven passes modelled from the specification, returns
the empty sequence, and the request that carries the document is executed. -/
theorem ValidateDocument_valid_document (s : Schema) (doc : Document)
    (h : ValidDocument s doc) :
    ValidateDocument passes doc s = [] ∧ handleRequest s doc = .executed := by
  have hempty : ValidateDocument passes doc s = [] := by
    rw [ValidateDocument_eq, passOutputs_valid h]
    rfl
  refine ⟨hempty, ?_⟩
  unfold handleRequest
  rw [hempty]

/-- C10 at the documents of `TestGraphQLWS`: `{ foo }`, with a query type that has
`foo: Boolean`, and `subscription { time }`, with the subscription root field
`time: DateTime!`, are valid, yield no finding and are executed; so are a document whose
variable is used only in a fragment that the operation includes, and a document that
selects one field twice with the same arguments in another order. -/
theorem ValidateDocument_valid_document_witness :
    (ValidDocument testSchema fooDocument
        ∧ ValidateDocument passes fooDocument testSchema = []
        ∧ handleRequest testSchema fooDocument = .executed)
      ∧ (ValidDocument testSchema timeDocument
        ∧ ValidateDocument passes timeDocument testSchema = []
        ∧ handleRequest testSchema timeDocument = .executed)
      ∧ (ValidDocument exampleSchema skipDocument
        ∧ ValidateDocument passes skipDocument exampleSchema = []
        ∧ handleRequest exampleSchema skipDocument = .executed)
      ∧ (ValidDocument exampleSchema bothDocument
        ∧ ValidateDocument passes bothDocument exampleSchema = []
        ∧ handleRequest exampleSchema bothDocument = .executed) :=
  ⟨⟨fooDocument_valid, ValidateDocument_valid_document testSchema fooDocument fooDocument_valid⟩,
    ⟨timeDocument_valid,
      ValidateDocument_valid_document testSchema timeDocument timeDocument_valid⟩,
    ⟨skipDocument_valid,
      ValidateDocument_valid_document exampleSchema skipDocument skipDocument_valid⟩,
    ⟨bothDocument_valid,
      ValidateDocument_valid_document exampleSchema bothDocument bothDocument_valid⟩⟩

end SpecModel

end Validator
